import Mathlib

/-!
Verification of the `git-auto` rebase orchestrator (`src/lib.rs`) against its
natural-language specification.

The program is a thin orchestrator around an external version-control
collaborator.  We embed it shallowly:

* byte strings are `List Nat` (each element a `u8` value);
* fallible operations return `Except Err _`;
* every issued collaborator command and every conflict-memo file write is
  recorded in an interaction trace (`List Event`), and the collaborator's
  responses are supplied by an environment (`Env`) whose answers may depend on
  the history of commands issued so far;
* the conflict-memo module (`mod conflicts`, whose source file is not part of
  the repository snapshot) is modelled from the specification.
-/

namespace Autorebase

/-! ## List-splitting utilities

These model the Rust standard-library operations used by the source:
`slice::split` (used in `get_branches`), `str::lines` (used in
`get_target_commit_list`) and `str::trim` (used in `get_merge_base`). -/

/-- Splits a list at every occurrence of `sep`, keeping empty segments and
dropping the separators, exactly like Rust's `slice::split`.  The result is
always non-empty: `n` separators produce `n + 1` segments. -/
def splitSep {α : Type} [DecidableEq α] (sep : α) : List α → List (List α)
  | [] => [[]]
  | c :: rest =>
    if c = sep then [] :: splitSep sep rest
    else
      match splitSep sep rest with
      | [] => [[c]]
      | p :: ps => (c :: p) :: ps

/-- Drops a single trailing carriage return, modelling the `\r` stripping that
Rust's `str::lines` applies to each line that was terminated by `\r\n`. -/
def stripCr (l : List Char) : List Char :=
  match l.reverse with
  | c :: t => if c = '\r' then t.reverse else l
  | [] => l

/-- Core of the `str::lines` model: the last segment produced by splitting at
newlines is dropped when empty (a final line terminator is optional), and every
segment that was followed by a further segment has a trailing `\r` stripped. -/
def rustLinesCore : List (List Char) → List (List Char)
  | [] => []
  | [l] => if l = [] then [] else [l]
  | p :: q :: ps => stripCr p :: rustLinesCore (q :: ps)

/-- Model of Rust's `str::lines` (collected to a list, as the source does). -/
def rustLines (s : String) : List String :=
  (rustLinesCore (splitSep '\n' s.data)).map String.mk

/-- Model of Rust's `str::trim`: removes leading and trailing whitespace. -/
def rustTrim (s : String) : String :=
  String.mk (((s.data.dropWhile Char.isWhitespace).reverse.dropWhile
    Char.isWhitespace).reverse)

/-- Joins a list of lines, terminating every line with `\n` — the shape of the
collaborator's `git log --format=%H` output (one full hash per line). -/
def joinLines (l : List String) : String :=
  String.mk (((l.map String.data).map (· ++ ['\n'])).flatten)

/-! ## Conflict memo

`mod conflicts` is declared by `src/lib.rs` but its source file is not in the
repository snapshot, so the memo is modelled from the specification. -/

/-- Error value abstracting `anyhow::Error`. -/
structure Err where
  msg : String
deriving Repr, DecidableEq

instance exceptDecEq {ε α : Type} [DecidableEq ε] [DecidableEq α] :
    DecidableEq (Except ε α) := fun x y =>
  match x, y with
  | .ok a, .ok b =>
    if h : a = b then .isTrue (by rw [h])
    else .isFalse (by intro he; cases he; exact h rfl)
  | .error a, .error b =>
    if h : a = b then .isTrue (by rw [h])
    else .isFalse (by intro he; cases he; exact h rfl)
  | .ok _, .error _ => .isFalse (by intro he; cases he)
  | .error _, .ok _ => .isFalse (by intro he; cases he)

/-- First value associated with `k`, modelling map lookup. -/
def lookupAssoc : List (String × String) → String → Option String
  | [], _ => none
  | p :: rest, k => if p.1 = k then some p.2 else lookupAssoc rest k

/-- Removes every pair keyed by `k`, modelling map removal. -/
def removeAssoc : List (String × String) → String → List (String × String)
  | [], _ => []
  | p :: rest, k =>
    if p.1 = k then removeAssoc rest k else p :: removeAssoc rest k

/-- Modelled from the spec: the persistent Conflict Memo, "a mapping from
branch name to a commit identifier" (`Conflicts { branches }` in the missing
`conflicts.rs`), represented as an association list of key/value pairs. -/
structure Conflicts where
  branches : List (String × String)
deriving Repr, DecidableEq

/-- Models `Default::default()`: the empty memo. -/
def Conflicts.empty : Conflicts := ⟨[]⟩

/-- Models `conflicts.branches.get(branch)`. -/
def Conflicts.get (c : Conflicts) (k : String) : Option String :=
  lookupAssoc c.branches k

/-- Models `conflicts.branches.remove(branch)` (the spec's `forget`). -/
def Conflicts.remove (c : Conflicts) (k : String) : Conflicts :=
  ⟨removeAssoc c.branches k⟩

/-- Models `conflicts.branches.insert(branch, commit)` (the spec's `remember`). -/
def Conflicts.insert (c : Conflicts) (k v : String) : Conflicts :=
  ⟨removeAssoc c.branches k ++ [(k, v)]⟩

/-! ### Memo serialization

Modelled from the spec: the state file is a "structured text document with one
recognized top-level table mapping branch name (string) to commit identifier
(string)" which "must round-trip byte-for-byte semantically across load/save".
We model the document as a `[branches]` header followed by one
`"key" = "value"` line per entry, with backslash escaping inside the quoted
strings so that arbitrary key/value strings serialize unambiguously. -/

/-- Escapes one character for inclusion in a quoted string. -/
def escChar (c : Char) : List Char :=
  if c = '\\' then ['\\', '\\']
  else if c = '"' then ['\\', '"']
  else if c = '\n' then ['\\', 'n']
  else [c]

/-- Escapes a whole string. -/
def escapeStr (s : List Char) : List Char := (s.map escChar).flatten

/-- Parses the remainder of a quoted string (the opening quote has been
consumed), returning the unescaped content and the input following the closing
quote. -/
def parseQuotedAux : List Char → Option (List Char × List Char)
  | [] => none
  | [c] => if c = '"' then some ([], []) else none
  | c :: d :: rest2 =>
    if c = '"' then some ([], d :: rest2)
    else if c = '\\' then
      match
        (if d = '\\' then some '\\'
         else if d = '"' then some '"'
         else if d = 'n' then some '\n'
         else none) with
      | none => none
      | some ch =>
        match parseQuotedAux rest2 with
        | none => none
        | some (s, r) => some (ch :: s, r)
    else
      match parseQuotedAux (d :: rest2) with
      | none => none
      | some (s, r) => some (c :: s, r)

/-- Serializes one memo entry as a `"key" = "value"` line (no terminator). -/
def serializeEntryLine (kv : String × String) : List Char :=
  '"' :: (escapeStr kv.1.data ++
    '"' :: ' ' :: '=' :: ' ' :: '"' :: (escapeStr kv.2.data ++ ['"']))

/-- Parses one `"key" = "value"` line. -/
def parseEntryLine (l : List Char) : Option (String × String) :=
  match l with
  | [] => none
  | c :: rest =>
    if c = '"' then
      match parseQuotedAux rest with
      | none => none
      | some (k, r1) =>
        match r1 with
        | a :: b :: c2 :: d :: r2 =>
          if a = ' ' then
            if b = '=' then
              if c2 = ' ' then
                if d = '"' then
                  match parseQuotedAux r2 with
                  | none => none
                  | some (v, r3) =>
                    if r3 = [] then some (String.mk k, String.mk v) else none
                else none
              else none
            else none
          else none
        | _ => none
    else none

/-- Parses the newline-split segments following the header.  A well-formed
document ends with a newline, so the final segment must be empty. -/
def parseEntryLines : List (List Char) → Option (List (String × String))
  | [] => none
  | [last] => if last = [] then some [] else none
  | l :: next :: rest =>
    match parseEntryLine l, parseEntryLines (next :: rest) with
    | some kv, some kvs => some (kv :: kvs)
    | _, _ => none

/-- Modelled from the spec: `save` — serializes the memo, overwriting the state
file (the file is represented by its contents). -/
def Conflicts.write_to_file (c : Conflicts) : List Char :=
  "[branches]".data ++
    '\n' :: ((c.branches.map serializeEntryLine).map (· ++ ['\n'])).flatten

/-- Modelled from the spec: `load` — parses the state-file contents back into a
memo, failing on malformed documents. -/
def Conflicts.read_from_file (content : List Char) : Except Err Conflicts :=
  match splitSep '\n' content with
  | [] => .error ⟨"conflicts file parse error"⟩
  | hdr :: rest =>
    if hdr = "[branches]".data then
      match parseEntryLines rest with
      | some entries => .ok ⟨entries⟩
      | none => .error ⟨"conflicts file parse error"⟩
    else .error ⟨"conflicts file parse error"⟩

/-! ## The orchestrator (`autorebase` and its helpers in `src/lib.rs`)

Each collaborator call and each memo write is appended to an interaction
trace.  The collaborator's responses come from an `Env`; a response may depend
on the commands issued so far (the repository's state is held by the external
tool, so earlier commands — e.g. a successful rebase — may change later
answers).  A fallible step returns `Except Err _ × List Event`: on error the
computation stops, Rust's `?` operator, but the trace of effects performed
before the failure is preserved. -/

/-- One observable effect of the orchestrator. -/
inductive Event where
  /-- Records that `run_git_cmd(args, cwd)` was issued (status-only command). -/
  | gitCmd (args : List String) (cwd : String)
  /-- Records that `run_git_cmd_output(args, cwd)` was issued (output-capturing command). -/
  | gitOut (args : List String) (cwd : String)
  /-- Records that `conflicts.write_to_file(&conflicts_path)` persisted this mapping. -/
  | memoWrite (m : List (String × String))
  /-- A diagnostic was printed to stderr. -/
  | eprintln (msg : String)
deriving Repr, DecidableEq

/-- Struct `BranchInfo` as the orchestrator consumes it (`get_branches` has already
decoded the fields to text; its byte-level parsing is modelled separately). -/
structure BranchInfo where
  branch : String
  upstream : Option String
  worktree_path : Option String
deriving Repr, DecidableEq

/-- The external collaborator plus process environment.  Responses may depend
on the interaction history so far. -/
structure Env where
  /-- Result of `conflicts_path.is_file()` paired with the file's contents. -/
  memoFile : Option (List Char)
  /-- Result of `worktree_path.is_dir()`. -/
  worktreeIsDir : Bool
  /-- Parsed result of `get_branches(&repo_path)`. -/
  branchesOutput : Except Err (List BranchInfo)
  /-- Exit status of `run_git_cmd(args, cwd)` given the history so far. -/
  runGit : List Event → List String → String → Except Err Unit
  /-- Output of `run_git_cmd_output(args, cwd)` given the history so far. -/
  runGitOut : List Event → List String → String → Except Err String
  /-- Result of `Path::exists`, used by `is_rebasing`, given the history so far. -/
  pathExists : List Event → String → Bool

/-- Issues a status-only command, recording it in the trace. -/
def runGitCmd (env : Env) (args : List String) (cwd : String)
    (tr : List Event) : Except Err Unit × List Event :=
  (env.runGit tr args cwd, tr ++ [Event.gitCmd args cwd])

/-- Issues an output-capturing command, recording it in the trace. -/
def runGitCmdOutput (env : Env) (args : List String) (cwd : String)
    (tr : List Event) : Except Err String × List Event :=
  (env.runGitOut tr args cwd, tr ++ [Event.gitOut args cwd])

/-- Records a stderr diagnostic. -/
def logLine (msg : String) (tr : List Event) : List Event :=
  tr ++ [Event.eprintln msg]

/-- Models `create_scratch_worktree`. -/
def create_scratch_worktree (env : Env) (repo_path worktree_path : String)
    (tr : List Event) : Except Err Unit × List Event :=
  runGitCmd env ["worktree", "add", "--detach", worktree_path] repo_path tr

/-- Models `get_merge_base`: runs `git merge-base a b` and trims the output. -/
def get_merge_base (env : Env) (repo_path a b : String)
    (tr : List Event) : Except Err String × List Event :=
  match runGitCmdOutput env ["merge-base", a, b] repo_path tr with
  | (.error e, tr1) => (.error e, tr1)
  | (.ok output, tr1) => (.ok (rustTrim output), tr1)

/-- Models `checkout_branch`: `git switch branch` in the given directory. -/
def checkout_branch (env : Env) (branch repo_path : String)
    (tr : List Event) : Except Err Unit × List Event :=
  runGitCmd env ["switch", branch] repo_path tr

/-- Models `is_rebasing`: checks for `rebase-apply` / `rebase-merge` marker
directories in the (work tree's) git metadata directory. -/
def is_rebasing (env : Env) (repo_path : String) (worktree : Option String)
    (tr : List Event) : Bool :=
  let worktree_git_dir :=
    match worktree with
    | some w => repo_path ++ "/.git/worktrees/" ++ w
    | none => repo_path ++ "/.git"
  env.pathExists tr (worktree_git_dir ++ "/rebase-apply") ||
    env.pathExists tr (worktree_git_dir ++ "/rebase-merge")

/-- Outcome of one rebase attempt. -/
inductive RebaseResult where
  | Success
  | Conflict
deriving Repr, DecidableEq

/-- Models `attempt_rebase`: runs `git rebase onto` in the scratch worktree; on
success returns `Success`; on failure aborts a still-in-progress rebase (if
the markers are present) and returns `Conflict`. -/
def attempt_rebase (env : Env) (repo_path worktree_path onto : String)
    (tr : List Event) : Except Err RebaseResult × List Event :=
  let tr1 := tr ++ [Event.gitCmd ["rebase", onto] worktree_path]
  match env.runGit tr ["rebase", onto] worktree_path with
  | .ok _ => (.ok RebaseResult.Success, tr1)
  | .error _ =>
    if is_rebasing env repo_path (some "autorebase_worktree") tr1 then
      match runGitCmd env ["rebase", "--abort"] worktree_path tr1 with
      | (.error e, tr2) => (.error e, tr2)
      | (.ok _, tr2) => (.ok RebaseResult.Conflict, tr2)
    else (.ok RebaseResult.Conflict, tr1)

/-- Models `get_target_commit_list`: merge-base of `branch` and `onto`, then
`git log --format=%H merge_base..onto`, split into lines. -/
def get_target_commit_list (env : Env) (repo_path branch onto : String)
    (tr : List Event) : Except Err (List String) × List Event :=
  match get_merge_base env repo_path branch onto tr with
  | (.error e, tr1) => (.error e, tr1)
  | (.ok merge_base, tr1) =>
    match runGitCmdOutput env
        ["log", "--format=%H", merge_base ++ ".." ++ onto] repo_path tr1 with
    | (.error e, tr2) => (.error e, tr2)
    | (.ok output, tr2) => (.ok (rustLines output), tr2)

/-- The candidate iteration of `autorebase` (the `for target_commit in
target_commit_list` loop), carrying the `stopped_by_conflicts` flag. -/
def attemptLoop (env : Env) (repo_path worktree_path : String) :
    List String → Bool → List Event → Except Err Bool × List Event
  | [], stopped, tr => (.ok stopped, tr)
  | target_commit :: rest, stopped, tr =>
    let tr0 := logLine ("\nRebasing onto " ++ target_commit ++ "\n") tr
    match attempt_rebase env repo_path worktree_path target_commit tr0 with
    | (.error e, tr1) => (.error e, tr1)
    | (.ok RebaseResult.Success, tr1) =>
      (.ok stopped,
        logLine ("\nRebasing onto " ++ target_commit ++ ": success\n") tr1)
    | (.ok RebaseResult.Conflict, tr1) =>
      attemptLoop env repo_path worktree_path rest true
        (logLine ("\nRebasing onto " ++ target_commit ++ ": conflict\n") tr1)

/-- The body of `autorebase`'s main loop for one catalog entry: the four skip
checks followed, for an eligible branch, by forget-and-persist, target
resolution, checkout, the candidate iteration, detach, and the conditional
memo re-insertion. -/
def processBranch (env : Env) (repo_path worktree_path onto_branch : String)
    (conflicts : Conflicts) (b : BranchInfo) (tr : List Event) :
    Except Err Conflicts × List Event :=
  if b.branch = onto_branch then
    (.ok conflicts,
      logLine ("Skipping branch " ++ b.branch ++ " because it is the target") tr)
  else if b.upstream.isSome then
    (.ok conflicts,
      logLine ("Skipping branch " ++ b.branch ++ " because it tracks upstream") tr)
  else if b.worktree_path.isSome then
    (.ok conflicts,
      logLine ("Skipping branch " ++ b.branch ++ " because it is checked out") tr)
  else
    let branch := b.branch
    match runGitCmdOutput env ["rev-parse", branch] repo_path tr with
    | (.error e, tr1) => (.error e, tr1)
    | (.ok branch_commit, tr1) =>
      if conflicts.get branch = some branch_commit then
        (.ok conflicts,
          logLine ("Skipping branch " ++ branch ++
            " because it had conflicts last time we tried; rebase manually") tr1)
      else
        let conflicts1 := conflicts.remove branch
        let tr2 := tr1 ++ [Event.memoWrite conflicts1.branches]
        let tr3 := logLine ("\nRebasing " ++ branch ++ "\n") tr2
        match get_target_commit_list env repo_path branch onto_branch tr3 with
        | (.error e, tr4) => (.error e, tr4)
        | (.ok target_commit_list, tr4) =>
          match checkout_branch env branch worktree_path tr4 with
          | (.error e, tr5) => (.error e, tr5)
          | (.ok _, tr5) =>
            match attemptLoop env repo_path worktree_path
                target_commit_list false tr5 with
            | (.error e, tr6) => (.error e, tr6)
            | (.ok stopped_by_conflicts, tr6) =>
              match runGitCmd env ["checkout", "--detach"] worktree_path tr6 with
              | (.error e, tr7) => (.error e, tr7)
              | (.ok _, tr7) =>
                if stopped_by_conflicts then
                  match runGitCmdOutput env ["rev-parse", branch] repo_path tr7 with
                  | (.error e, tr8) => (.error e, tr8)
                  | (.ok new_branch_commit, tr8) =>
                    let conflicts2 := conflicts1.insert branch new_branch_commit
                    (.ok conflicts2, tr8 ++ [Event.memoWrite conflicts2.branches])
                else (.ok conflicts1, tr7)

/-- Models `autorebase`'s main loop over the branch catalog. -/
def mainLoop (env : Env) (repo_path worktree_path onto_branch : String) :
    List BranchInfo → Conflicts → List Event → Except Err Conflicts × List Event
  | [], conflicts, tr => (.ok conflicts, tr)
  | b :: bs, conflicts, tr =>
    match processBranch env repo_path worktree_path onto_branch conflicts b tr with
    | (.error e, tr1) => (.error e, tr1)
    | (.ok conflicts1, tr1) =>
      mainLoop env repo_path worktree_path onto_branch bs conflicts1 tr1

/-- The pre-loop mainline refresh (`src/lib.rs` lines 31–42): if the `onto`
branch is in the catalog and not checked out anywhere, check it out in the
scratch worktree, fast-forward pull, and detach; otherwise warn and skip. -/
def refreshOnto (env : Env) (worktree_path onto_branch : String)
    (all_branches : List BranchInfo) (tr : List Event) :
    Except Err Unit × List Event :=
  match all_branches.find? (fun b => b.branch = onto_branch) with
  | some onto_branch_info =>
    if onto_branch_info.worktree_path.isNone then
      match runGitCmd env ["checkout", onto_branch] worktree_path tr with
      | (.error e, tr1) => (.error e, tr1)
      | (.ok _, tr1) =>
        match runGitCmd env ["pull", "--ff-only"] worktree_path tr1 with
        | (.error e, tr2) => (.error e, tr2)
        | (.ok _, tr2) =>
          runGitCmd env ["checkout", "--detach"] worktree_path tr2
    else
      (.ok (),
        logLine ("Not pulling " ++ onto_branch_info.branch ++
          " because it is checked out") tr)
  | none =>
    (.ok (), logLine ("Warning: " ++ onto_branch ++ " not found") tr)

/-- The for-each-ref format string of `get_branches`. -/
def forEachRefFormat : String :=
  "--format=%(refname:short)%00%(upstream:short)%00%(worktreepath)"

/-- Top-level `autorebase(repo_path, onto_branch)`. -/
def autorebase (env : Env) (repo_path onto_branch : String)
    (tr : List Event) : Except Err Unit × List Event :=
  match
    (match env.memoFile with
     | some content => Conflicts.read_from_file content
     | none => .ok Conflicts.empty) with
  | .error e => (.error e, tr)
  | .ok conflicts =>
    let worktree_path := repo_path ++ "/.git/autorebase/autorebase_worktree"
    match
      (if !env.worktreeIsDir then
        create_scratch_worktree env repo_path worktree_path tr
      else (.ok (), tr)) with
    | (.error e, tr1) => (.error e, tr1)
    | (.ok _, tr1) =>
      let tr1 := tr1 ++ [Event.gitOut ["for-each-ref", forEachRefFormat,
        "refs/heads"] repo_path]
      match env.branchesOutput with
      | .error e => (.error e, tr1)
      | .ok all_branches =>
        match refreshOnto env worktree_path onto_branch all_branches tr1 with
        | (.error e, tr2) => (.error e, tr2)
        | (.ok _, tr2) =>
          match mainLoop env repo_path worktree_path onto_branch
              all_branches conflicts tr2 with
          | (.error e, tr3) => (.error e, tr3)
          | (.ok _, tr3) => (.ok (), tr3)

/-! ## The branch catalog parser (`get_branches`) at byte level

`get_branches` splits the raw `for-each-ref` output (bytes) into newline
records, drops empty records, splits each record at NUL bytes, demands exactly
three fields, and decodes each field with `str::from_utf8`, failing on the
first malformed record.  Bytes are `Nat` values (each `< 256` in real output;
the parser never relies on that bound). -/

/-- Holds for a UTF-8 continuation byte (`0x80..=0xBF`). -/
def isCont (b : Nat) : Bool := 0x80 ≤ b && b ≤ 0xBF

/-- Validity of a byte sequence as UTF-8, following the table checked by
Rust's `str::from_utf8` (RFC 3629: no overlong forms, no surrogates, max
`U+10FFFF`). -/
def utf8Valid : List Nat → Bool
  | [] => true
  | b :: rest =>
    if b ≤ 0x7F then utf8Valid rest
    else
      match rest with
      | [] => false
      | b2 :: rest2 =>
        if 0xC2 ≤ b && b ≤ 0xDF then isCont b2 && utf8Valid rest2
        else
          match rest2 with
          | [] => false
          | b3 :: rest3 =>
            if b = 0xE0 then
              (0xA0 ≤ b2 && b2 ≤ 0xBF) && isCont b3 && utf8Valid rest3
            else if (0xE1 ≤ b && b ≤ 0xEC) || b = 0xEE || b = 0xEF then
              isCont b2 && isCont b3 && utf8Valid rest3
            else if b = 0xED then
              (0x80 ≤ b2 && b2 ≤ 0x9F) && isCont b3 && utf8Valid rest3
            else
              match rest3 with
              | [] => false
              | b4 :: rest4 =>
                if b = 0xF0 then
                  (0x90 ≤ b2 && b2 ≤ 0xBF) && isCont b3 && isCont b4 &&
                    utf8Valid rest4
                else if 0xF1 ≤ b && b ≤ 0xF3 then
                  isCont b2 && isCont b3 && isCont b4 && utf8Valid rest4
                else if b = 0xF4 then
                  (0x80 ≤ b2 && b2 ≤ 0x8F) && isCont b3 && isCont b4 &&
                    utf8Valid rest4
                else false

/-- Struct `BranchInfo` with fields still at byte level (validated but not decoded:
the decoded text is in bijection with the byte sequence, so the bytes are kept
as the field representation). -/
structure BranchInfoRaw where
  branch : List Nat
  upstream : Option (List Nat)
  worktree_path : Option (List Nat)
deriving Repr, DecidableEq

/-- Parses one non-empty `for-each-ref` record (the closure inside
`get_branches`): split at NUL, demand exactly three parts, decode each. -/
def parseBranchRecord (line : List Nat) : Except Err BranchInfoRaw :=
  match splitSep 0 line with
  | [p0, p1, p2] =>
    if utf8Valid p0 then
      if p1 = [] then
        if p2 = [] then .ok ⟨p0, none, none⟩
        else if utf8Valid p2 then .ok ⟨p0, none, some p2⟩
        else .error ⟨"invalid utf-8 sequence"⟩
      else if utf8Valid p1 then
        if p2 = [] then .ok ⟨p0, some p1, none⟩
        else if utf8Valid p2 then .ok ⟨p0, some p1, some p2⟩
        else .error ⟨"invalid utf-8 sequence"⟩
      else .error ⟨"invalid utf-8 sequence"⟩
    else .error ⟨"invalid utf-8 sequence"⟩
  | parts =>
    .error ⟨"for-each-ref parse error, got " ++ toString parts.length ++
      " parts, expected 3"⟩

/-- Collects the per-record parses, stopping at the first error — the
`collect::<Result<Vec<_>, _>>()` of the source. -/
def collectRecords : List (List Nat) → Except Err (List BranchInfoRaw)
  | [] => .ok []
  | line :: rest =>
    match parseBranchRecord line with
    | .error e => .error e
    | .ok info =>
      match collectRecords rest with
      | .error e => .error e
      | .ok infos => .ok (info :: infos)

/-- Models `get_branches`, given the raw bytes of the `for-each-ref` output. -/
def get_branches (output : List Nat) : Except Err (List BranchInfoRaw) :=
  collectRecords ((splitSep 10 output).filter (fun line => ¬line = []))

/-- The record shape `get_branches` accepts: exactly three NUL-separated
fields, each valid UTF-8. -/
def recordWf (line : List Nat) : Bool :=
  match splitSep 0 line with
  | [p0, p1, p2] => utf8Valid p0 && utf8Valid p1 && utf8Valid p2
  | _ => false

/-- The `BranchInfo` a well-formed record denotes: empty upstream and
worktree-path fields become absent optionals. -/
def recordInfo (line : List Nat) : BranchInfoRaw :=
  match splitSep 0 line with
  | [p0, p1, p2] =>
    ⟨p0, if p1 = [] then none else some p1, if p2 = [] then none else some p2⟩
  | _ => ⟨[], none, none⟩

/-! ## A commit-DAG model of the collaborator

Modelled from the spec (§6): the external tool resolves refs, computes
merge-bases and enumerates `base..tip` commit ranges newest-first.  `commits`
lists every commit id **newest first** (git's log order); `parents` gives each
commit's parents; `refs` maps branch names to commit ids. -/

structure Dag where
  commits : List String
  parents : String → List String
  refs : List (String × String)

/-- Reachability (ancestor-or-self) by at most `fuel` parent steps. -/
def reachableFuel (d : Dag) : Nat → String → String → Bool
  | 0, a, b => a = b
  | fuel + 1, a, b =>
    a = b || (d.parents a).any (fun p => reachableFuel d fuel p b)

/-- Whether `b` is reachable from `a` (i.e. `b` is `a` or an ancestor of `a`). -/
def reachable (d : Dag) (a b : String) : Bool :=
  reachableFuel d d.commits.length a b

/-- Resolves a ref name or commit id to a commit id. -/
def dagResolve (d : Dag) (r : String) : Option String :=
  match lookupAssoc d.refs r with
  | some c => some c
  | none => if d.commits.contains r then some r else none

/-- The merge-base of two resolvable refs: the newest common ancestor, `none`
when the refs do not both resolve or share no common ancestor. -/
def dagMergeBase (d : Dag) (a b : String) : Option String :=
  match dagResolve d a, dagResolve d b with
  | some ca, some cb =>
    (d.commits.filter (fun c => reachable d ca c && reachable d cb c)).head?
  | _, _ => none

/-- The commits reachable from `tipC` but not from `baseC`, in the DAG's
newest-first commit order — the contents of `git log base..tip`. -/
def dagLog (d : Dag) (baseC tipC : String) : List String :=
  d.commits.filter (fun c => reachable d tipC c && !reachable d baseC c)

/-- Splits a string at the first occurrence of `".."`. -/
def splitDots : List Char → Option (List Char × List Char)
  | [] => none
  | [_] => none
  | c1 :: c2 :: rest =>
    if c1 = '.' then
      if c2 = '.' then some ([], rest)
      else
        match splitDots (c2 :: rest) with
        | none => none
        | some (a, b) => some (c1 :: a, b)
    else
      match splitDots (c2 :: rest) with
      | none => none
      | some (a, b) => some (c1 :: a, b)

/-- The DAG collaborator's response to an output-capturing command. -/
def dagRunGitOut (d : Dag) (_tr : List Event) (args : List String)
    (_cwd : String) : Except Err String :=
  match args with
  | ["merge-base", a, b] =>
    match dagMergeBase d a b with
    | some m => .ok (m ++ "\n")
    | none => .error ⟨"merge-base failed"⟩
  | ["rev-parse", r] =>
    match dagResolve d r with
    | some c => .ok (c ++ "\n")
    | none => .error ⟨"rev-parse failed"⟩
  | ["log", "--format=%H", range] =>
    match splitDots range.data with
    | none => .error ⟨"bad range"⟩
    | some (baseChars, tipChars) =>
      match dagResolve d (String.mk baseChars), dagResolve d (String.mk tipChars) with
      | some baseC, some tipC => .ok (joinLines (dagLog d baseC tipC))
      | _, _ => .error ⟨"log failed"⟩
  | _ => .error ⟨"unexpected command"⟩

/-- An `Env` whose output-capturing commands are answered by the DAG model
(status-only commands all succeed; no rebase markers). -/
def dagEnv (d : Dag) : Env where
  memoFile := none
  worktreeIsDir := true
  branchesOutput := .ok []
  runGit := fun _ _ _ => .ok ()
  runGitOut := dagRunGitOut d
  pathExists := fun _ _ => false

/-- A commit or ref id fit for embedding in command lines: non-empty, no
whitespace, no dots. -/
def goodId (s : String) : Bool :=
  ¬s.data = [] && s.data.all (fun c => !c.isWhitespace && !(c = '.'))

/-! ## Concrete environments used to instantiate the theorems

All of these answer independently of the interaction history, so the same
response may be quoted at any point of a run. -/

/-- A branch `wip` at commit `c1`, target list `["t1"]`, first rebase attempt
succeeds. -/
def envW : Env where
  memoFile := none
  worktreeIsDir := true
  branchesOutput := .ok [⟨"master", none, none⟩, ⟨"wip", none, none⟩]
  runGit := fun _ _ _ => .ok ()
  runGitOut := fun _ args _ =>
    if args = ["rev-parse", "wip"] then .ok "c1"
    else if args = ["merge-base", "wip", "master"] then .ok "mb\n"
    else if args = ["log", "--format=%H", "mb..master"] then .ok "t1\n"
    else .error ⟨"unexpected command"⟩
  pathExists := fun _ _ => false

/-- A branch `wip` at commit `c0` with target list `["t1", "t2"]`; rebasing
onto `t1` fails (no in-progress markers remain) and rebasing onto `t2`
succeeds. -/
def envC1 : Env where
  memoFile := none
  worktreeIsDir := true
  branchesOutput := .ok []
  runGit := fun _ args _ =>
    if args = ["rebase", "t1"] then .error ⟨"rebase conflict"⟩ else .ok ()
  runGitOut := fun _ args _ =>
    if args = ["rev-parse", "wip"] then .ok "c0"
    else if args = ["merge-base", "wip", "master"] then .ok "mb\n"
    else if args = ["log", "--format=%H", "mb..master"] then .ok "t1\nt2\n"
    else .error ⟨"unexpected command"⟩
  pathExists := fun _ _ => false

/-- A branch `wip` at commit `c1` whose target-candidate list is empty (the
`log` range output is empty); every status command succeeds. -/
def envC2 : Env where
  memoFile := none
  worktreeIsDir := true
  branchesOutput := .ok []
  runGit := fun _ _ _ => .ok ()
  runGitOut := fun _ args _ =>
    if args = ["rev-parse", "wip"] then .ok "c1"
    else if args = ["merge-base", "wip", "master"] then .ok "mb\n"
    else if args = ["log", "--format=%H", "mb..master"] then .ok ""
    else .error ⟨"unexpected command"⟩
  pathExists := fun _ _ => false

/-- Rebasing onto `X` fails leaving in-progress markers, and the
`rebase --abort` cleanup fails as well. -/
def envC5 : Env where
  memoFile := none
  worktreeIsDir := true
  branchesOutput := .ok []
  runGit := fun _ args _ =>
    if args = ["rebase", "X"] then .error ⟨"rebase failed"⟩
    else if args = ["rebase", "--abort"] then .error ⟨"abort failed"⟩
    else .ok ()
  runGitOut := fun _ _ _ => .error ⟨"unexpected command"⟩
  pathExists := fun _ _ => true

/-- Like `envC2` (empty target list for `wip`) but `git switch wip` fails. -/
def envSwitchFail : Env where
  memoFile := none
  worktreeIsDir := true
  branchesOutput := .ok [⟨"wip", none, none⟩]
  runGit := fun _ args _ =>
    if args = ["switch", "wip"] then .error ⟨"worktree is dirty"⟩ else .ok ()
  runGitOut := fun _ args _ =>
    if args = ["rev-parse", "wip"] then .ok "c1"
    else if args = ["merge-base", "wip", "master"] then .ok "mb\n"
    else if args = ["log", "--format=%H", "mb..master"] then .ok ""
    else .error ⟨"unexpected command"⟩
  pathExists := fun _ _ => false

/-- Mainline `master` at `c2` (history `c2 ← c1 ← c0`) and a topic branch
`wip` at `w1` branched off `c0`. -/
def dagW : Dag where
  commits := ["c2", "w1", "c1", "c0"]
  parents := fun c =>
    if c = "c2" then ["c1"]
    else if c = "c1" then ["c0"]
    else if c = "w1" then ["c0"]
    else []
  refs := [("master", "c2"), ("wip", "w1")]

/-- Two single-commit branches with disjoint histories. -/
def dagDisjoint : Dag where
  commits := ["a1", "b1"]
  parents := fun _ => []
  refs := [("master", "a1"), ("wip", "b1")]

/-! ## Utility lemmas -/

theorem mk_data (s : String) : String.mk s.data = s := rfl

theorem splitSep_append_sep {α : Type} [DecidableEq α] (sep : α) (a r : List α)
    (ha : sep ∉ a) : splitSep sep (a ++ sep :: r) = a :: splitSep sep r := by
  induction a with
  | nil => simp [splitSep]
  | cons c a2 ih =>
    have hc : ¬c = sep := fun h => ha (h ▸ List.mem_cons_self c a2)
    simp only [List.cons_append, splitSep, if_neg hc, List.append_eq]
    rw [ih (fun h => ha (List.mem_cons_of_mem _ h))]

theorem splitSep_no_sep {α : Type} [DecidableEq α] (sep : α) (a : List α)
    (ha : sep ∉ a) : splitSep sep a = [a] := by
  induction a with
  | nil => rfl
  | cons c a2 ih =>
    have hc : ¬c = sep := fun h => ha (h ▸ List.mem_cons_self c a2)
    simp only [splitSep, if_neg hc]
    rw [ih (fun h => ha (List.mem_cons_of_mem _ h))]

theorem stripCr_eq_self (l : List Char) (h : '\r' ∉ l) : stripCr l = l := by
  unfold stripCr
  split
  · rename_i c t heq
    have hc : ¬c = '\r' := by
      intro he
      exact h (by
        rw [← List.mem_reverse, heq]
        exact he ▸ List.mem_cons_self c t)
    simp [if_neg hc]
  · rfl

theorem splitSep_flatten_terminated (sep : Char) (l : List (List Char))
    (h : ∀ p ∈ l, sep ∉ p) :
    splitSep sep ((l.map (· ++ [sep])).flatten) = l ++ [[]] := by
  induction l with
  | nil => rfl
  | cons a l2 ih =>
    simp only [List.map_cons, List.flatten_cons, List.append_assoc,
      List.singleton_append]
    rw [splitSep_append_sep sep a _ (h a (List.mem_cons_self a l2))]
    rw [ih (fun p hp => h p (List.mem_cons_of_mem _ hp))]
    rfl

theorem rustLinesCore_terminated (l : List (List Char))
    (h : ∀ p ∈ l, '\r' ∉ p) : rustLinesCore (l ++ [[]]) = l := by
  induction l with
  | nil => rfl
  | cons a l2 ih =>
    cases l2 with
    | nil =>
      simp [rustLinesCore, stripCr_eq_self a (h a (List.mem_cons_self a []))]
    | cons b l3 =>
      simp only [List.cons_append, rustLinesCore, List.append_eq]
      rw [stripCr_eq_self a (h a (List.mem_cons_self a _))]
      have := ih (fun p hp => h p (List.mem_cons_of_mem _ hp))
      simp only [List.cons_append, List.append_eq] at this
      rw [this]

theorem rustLines_joinLines (l : List String)
    (h : ∀ s ∈ l, '\n' ∉ s.data ∧ '\r' ∉ s.data) :
    rustLines (joinLines l) = l := by
  unfold rustLines joinLines
  rw [show (String.mk (((l.map String.data).map (· ++ ['\n'])).flatten)).data =
      ((l.map String.data).map (· ++ ['\n'])).flatten from rfl]
  rw [splitSep_flatten_terminated '\n' (l.map String.data)
    (by
      intro p hp
      rcases List.mem_map.mp hp with ⟨s, hs, rfl⟩
      exact (h s hs).1)]
  rw [rustLinesCore_terminated (l.map String.data)
    (by
      intro p hp
      rcases List.mem_map.mp hp with ⟨s, hs, rfl⟩
      exact (h s hs).2)]
  rw [List.map_map]
  have hid : ∀ l2 : List String, List.map (String.mk ∘ String.data) l2 = l2 := by
    intro l2
    induction l2 with
    | nil => rfl
    | cons s t ih => simp only [List.map_cons, Function.comp_apply, mk_data, ih]
  exact hid l

theorem dropWhile_eq_self_of_all {α : Type} (p : α → Bool) (l : List α)
    (h : ∀ c ∈ l, p c = false) : l.dropWhile p = l := by
  cases l with
  | nil => rfl
  | cons c rest =>
    simp [List.dropWhile_cons, h c (List.mem_cons_self c rest)]

theorem goodId_spec (s : String) (hg : goodId s = true) :
    ¬s.data = [] ∧ ∀ c ∈ s.data, c.isWhitespace = false ∧ ¬c = '.' := by
  unfold goodId at hg
  rw [Bool.and_eq_true] at hg
  refine ⟨by simpa using hg.1, fun c hc => ?_⟩
  have := List.all_eq_true.mp hg.2 c hc
  rw [Bool.and_eq_true] at this
  exact ⟨by simpa using this.1, by simpa using this.2⟩

theorem rustTrim_good (s : String) (hg : goodId s = true) :
    rustTrim (s ++ "\n") = s := by
  obtain ⟨hne, hch⟩ := goodId_spec s hg
  unfold rustTrim
  have hdata : (s ++ "\n").data = s.data ++ ['\n'] := by
    simp [String.data_append]
  rw [hdata]
  have h1 : (s.data ++ ['\n']).dropWhile Char.isWhitespace =
      s.data ++ ['\n'] := by
    cases hsd : s.data with
    | nil => exact absurd hsd hne
    | cons c rest =>
      rw [List.cons_append, List.dropWhile_cons,
        (hch c (hsd ▸ List.mem_cons_self c rest)).1]
      rfl
  rw [h1]
  rw [List.reverse_append, List.reverse_singleton, List.singleton_append,
    List.dropWhile_cons]
  rw [show Char.isWhitespace '\n' = true from by decide, if_pos rfl]
  rw [dropWhile_eq_self_of_all Char.isWhitespace s.data.reverse
    (fun c hc => (hch c (List.mem_reverse.mp hc)).1)]
  rw [List.reverse_reverse]

/-! ## Round-trip of the conflict-memo serialization -/

theorem parseQuotedAux_roundtrip (s r : List Char) :
    parseQuotedAux (escapeStr s ++ '"' :: r) = some (s, r) := by
  induction s with
  | nil =>
    show parseQuotedAux ('"' :: r) = some ([], r)
    cases r with
    | nil => rfl
    | cons x xs => rfl
  | cons c s2 ih =>
    simp only [escapeStr, List.map_cons, List.flatten_cons,
      List.append_assoc] at ih ⊢
    by_cases h1 : c = '\\'
    · subst h1
      simp +decide [escChar, parseQuotedAux, ih]
    · by_cases h2 : c = '"'
      · subst h2
        simp +decide [escChar, parseQuotedAux, ih]
      · by_cases h3 : c = '\n'
        · subst h3
          simp +decide [escChar, parseQuotedAux, ih]
        · simp only [escChar, if_neg h1, if_neg h2, if_neg h3,
            List.cons_append, List.nil_append]
          cases hE : (List.map escChar s2).flatten ++ '"' :: r with
          | nil => exact absurd hE (by simp)
          | cons d rest2 =>
            rw [hE] at ih
            rw [parseQuotedAux, if_neg h2, if_neg h1, ih]

theorem escChar_no_newline (c : Char) : '\n' ∉ escChar c := by
  unfold escChar
  by_cases h1 : c = '\\'
  · simp +decide [h1]
  · by_cases h2 : c = '"'
    · simp +decide [h1, h2]
    · by_cases h3 : c = '\n'
      · simp +decide [h1, h2, h3]
      · simp [h1, h2, h3]
        exact fun h => h3 h.symm

theorem escapeStr_no_newline (s : List Char) : '\n' ∉ escapeStr s := by
  intro h
  rw [escapeStr, List.mem_flatten] at h
  obtain ⟨l, hl, hc⟩ := h
  rw [List.mem_map] at hl
  obtain ⟨c, -, rfl⟩ := hl
  exact escChar_no_newline c hc

theorem serializeEntryLine_no_newline (kv : String × String) :
    '\n' ∉ serializeEntryLine kv := by
  unfold serializeEntryLine
  simp +decide [escapeStr_no_newline]

theorem parseEntryLine_roundtrip (kv : String × String) :
    parseEntryLine (serializeEntryLine kv) = some kv := by
  unfold serializeEntryLine parseEntryLine
  simp +decide [parseQuotedAux_roundtrip, mk_data]

theorem parseEntryLines_roundtrip (l : List (String × String)) :
    parseEntryLines (l.map serializeEntryLine ++ [[]]) = some l := by
  induction l with
  | nil => rfl
  | cons kv l2 ih =>
    cases l2 with
    | nil => simp [parseEntryLines, parseEntryLine_roundtrip]
    | cons kv2 l3 =>
      simp only [List.map_cons, List.cons_append, List.append_eq,
        parseEntryLines] at ih ⊢
      rw [parseEntryLine_roundtrip, ih]

/-! ## Trace monotonicity

Every operation only ever appends to the interaction trace; these lemmas make
that explicit so that prefix properties of a run survive arbitrary later
steps. -/

/-- Relation stating `tr2` extends `tr1` by some suffix. -/
def TraceExt (tr2 tr1 : List Event) : Prop := ∃ t, tr2 = tr1 ++ t

theorem TraceExt.rfl (tr : List Event) : TraceExt tr tr :=
  ⟨[], by simp⟩

theorem TraceExt.snoc (tr1 : List Event) (e : Event) :
    TraceExt (tr1 ++ [e]) tr1 :=
  ⟨[e], by simp⟩

theorem TraceExt.trans {tr3 tr2 tr1 : List Event}
    (h32 : TraceExt tr3 tr2) (h21 : TraceExt tr2 tr1) : TraceExt tr3 tr1 := by
  obtain ⟨t1, rfl⟩ := h32
  obtain ⟨t2, rfl⟩ := h21
  exact ⟨t2 ++ t1, by simp⟩

theorem TraceExt.snoc_of {tr2 tr1 : List Event} (e : Event)
    (h : TraceExt tr2 tr1) : TraceExt (tr2 ++ [e]) tr1 :=
  (TraceExt.snoc tr2 e).trans h

theorem attempt_rebase_trace (env : Env) (repo wt onto : String)
    (tr : List Event) :
    TraceExt (attempt_rebase env repo wt onto tr).2 tr := by
  unfold attempt_rebase runGitCmd
  cases env.runGit tr ["rebase", onto] wt with
  | ok u => exact TraceExt.snoc tr _
  | error e =>
    dsimp only
    by_cases h : is_rebasing env repo (some "autorebase_worktree")
        (tr ++ [Event.gitCmd ["rebase", onto] wt]) = true
    · rw [if_pos h]
      cases env.runGit (tr ++ [Event.gitCmd ["rebase", onto] wt])
          ["rebase", "--abort"] wt with
      | ok u => exact TraceExt.snoc_of _ (TraceExt.snoc tr _)
      | error e2 => exact TraceExt.snoc_of _ (TraceExt.snoc tr _)
    · rw [if_neg h]
      exact TraceExt.snoc tr _

theorem logLine_trace (msg : String) (tr : List Event) :
    TraceExt (logLine msg tr) tr :=
  TraceExt.snoc tr _

theorem attemptLoop_trace (env : Env) (repo wt : String) (ts : List String)
    (st : Bool) (tr : List Event) :
    TraceExt (attemptLoop env repo wt ts st tr).2 tr := by
  induction ts generalizing st tr with
  | nil => exact TraceExt.rfl tr
  | cons tc rest ih =>
    unfold attemptLoop
    dsimp only
    have h1 := attempt_rebase_trace env repo wt tc
      (logLine ("\nRebasing onto " ++ tc ++ "\n") tr)
    rcases har : attempt_rebase env repo wt tc
        (logLine ("\nRebasing onto " ++ tc ++ "\n") tr) with ⟨res, tr1⟩
    rw [har] at h1
    simp only at h1
    have h1' : TraceExt tr1 tr := h1.trans (logLine_trace _ tr)
    cases res with
    | error e => exact h1'
    | ok r =>
      cases r with
      | Success => exact (logLine_trace _ tr1).trans h1'
      | Conflict =>
        exact (ih true _).trans ((logLine_trace _ tr1).trans h1')

theorem get_target_commit_list_trace (env : Env) (repo branch onto : String)
    (tr : List Event) :
    TraceExt (get_target_commit_list env repo branch onto tr).2 tr := by
  unfold get_target_commit_list get_merge_base runGitCmdOutput
  cases env.runGitOut tr ["merge-base", branch, onto] repo with
  | error e => exact TraceExt.snoc tr _
  | ok out =>
    dsimp only
    cases env.runGitOut (tr ++ [Event.gitOut ["merge-base", branch, onto] repo])
        ["log", "--format=%H", rustTrim out ++ ".." ++ onto] repo with
    | error e => exact TraceExt.snoc_of _ (TraceExt.snoc tr _)
    | ok out2 => exact TraceExt.snoc_of _ (TraceExt.snoc tr _)

/-- For an eligible (non-skipped) branch the trace grows by exactly the
rev-parse record, the persisted forget, and the progress message — in that
order — before anything else happens; every later step only appends, so these
three events are the run's next three events no matter how the rest of the
branch's processing goes. -/
theorem processBranch_inprogress_take (env : Env)
    (repo worktree onto : String) (conflicts : Conflicts) (b : BranchInfo)
    (tr : List Event) (commit : String)
    (h1 : ¬b.branch = onto) (h2 : b.upstream = none)
    (h3 : b.worktree_path = none)
    (h4 : env.runGitOut tr ["rev-parse", b.branch] repo = .ok commit)
    (h5 : ¬conflicts.get b.branch = some commit) :
    (processBranch env repo worktree onto conflicts b tr).2.take
        (tr.length + 3) =
      tr ++ [Event.gitOut ["rev-parse", b.branch] repo,
        Event.memoWrite (conflicts.remove b.branch).branches,
        Event.eprintln ("\nRebasing " ++ b.branch ++ "\n")] := by
  have hext : TraceExt (processBranch env repo worktree onto conflicts b tr).2
      (tr ++ [Event.gitOut ["rev-parse", b.branch] repo,
        Event.memoWrite (conflicts.remove b.branch).branches,
        Event.eprintln ("\nRebasing " ++ b.branch ++ "\n")]) := by
    unfold processBranch runGitCmdOutput
    rw [if_neg h1, if_neg (by simp [h2]), if_neg (by simp [h3])]
    dsimp only
    rw [h4]
    dsimp only
    rw [if_neg h5]
    have hpre : logLine ("\nRebasing " ++ b.branch ++ "\n")
        ((tr ++ [Event.gitOut ["rev-parse", b.branch] repo]) ++
          [Event.memoWrite (conflicts.remove b.branch).branches]) =
        tr ++ [Event.gitOut ["rev-parse", b.branch] repo,
          Event.memoWrite (conflicts.remove b.branch).branches,
          Event.eprintln ("\nRebasing " ++ b.branch ++ "\n")] := by
      rw [logLine]
      simp
    rw [hpre]
    set tr3 := tr ++ [Event.gitOut ["rev-parse", b.branch] repo,
      Event.memoWrite (conflicts.remove b.branch).branches,
      Event.eprintln ("\nRebasing " ++ b.branch ++ "\n")] with htr3
    have hg := get_target_commit_list_trace env repo b.branch onto tr3
    rcases hgt : get_target_commit_list env repo b.branch onto tr3
      with ⟨res4, tr4⟩
    rw [hgt] at hg
    simp only at hg
    cases res4 with
    | error e => exact hg
    | ok ts =>
      dsimp only [checkout_branch, runGitCmd]
      cases env.runGit tr4 ["switch", b.branch] worktree with
      | error e => exact TraceExt.snoc_of _ hg
      | ok u =>
        dsimp only
        have hl := attemptLoop_trace env repo worktree ts false
          (tr4 ++ [Event.gitCmd ["switch", b.branch] worktree])
        rcases hlt : attemptLoop env repo worktree ts false
            (tr4 ++ [Event.gitCmd ["switch", b.branch] worktree])
          with ⟨res6, tr6⟩
        rw [hlt] at hl
        simp only at hl
        have h6 : TraceExt tr6 tr3 := hl.trans (TraceExt.snoc_of _ hg)
        cases res6 with
        | error e => exact h6
        | ok stopped =>
          dsimp only
          cases env.runGit tr6 ["checkout", "--detach"] worktree with
          | error e => exact TraceExt.snoc_of _ h6
          | ok u2 =>
            dsimp only
            cases stopped with
            | false => exact TraceExt.snoc_of _ h6
            | true =>
              cases env.runGitOut
                  (tr6 ++ [Event.gitCmd ["checkout", "--detach"] worktree])
                  ["rev-parse", b.branch] repo with
              | error e =>
                exact TraceExt.snoc_of _ (TraceExt.snoc_of _ h6)
              | ok c2 =>
                exact TraceExt.snoc_of _
                  (TraceExt.snoc_of _ (TraceExt.snoc_of _ h6))
  obtain ⟨t, ht⟩ := hext
  rw [ht]
  apply List.take_left'
  simp

theorem removeAssoc_eq_self_of_lookup_none (l : List (String × String))
    (k : String) (h : lookupAssoc l k = none) : removeAssoc l k = l := by
  induction l with
  | nil => rfl
  | cons p rest ih =>
    unfold lookupAssoc at h
    unfold removeAssoc
    by_cases hp : p.1 = k
    · rw [if_pos hp] at h
      cases h
    · rw [if_neg hp] at h
      rw [if_neg hp, ih h]

theorem Conflicts.remove_eq_self_of_get_none (c : Conflicts) (k : String)
    (h : c.get k = none) : c.remove k = c := by
  unfold Conflicts.remove
  rw [removeAssoc_eq_self_of_lookup_none c.branches k h]

/-! ## The claims -/

/-- Claim C9. Conflict-memo persistence round-trips: for any mapping from branch
names to commit identifiers, saving it to the state file and loading it back
yields the same mapping — here even literally, entry for entry, which implies
semantic equality of the key/value pairs. -/
theorem C9_memo_roundtrip (c : Conflicts) :
    Conflicts.read_from_file (Conflicts.write_to_file c) = .ok c := by
  have hnl : ∀ p ∈ c.branches.map serializeEntryLine, '\n' ∉ p := by
    intro p hp
    rcases List.mem_map.mp hp with ⟨kv, -, rfl⟩
    exact serializeEntryLine_no_newline kv
  unfold Conflicts.write_to_file Conflicts.read_from_file
  rw [splitSep_append_sep '\n' "[branches]".data _ (by decide),
    splitSep_flatten_terminated '\n' (c.branches.map serializeEntryLine) hnl]
  simp [parseEntryLines_roundtrip]

/-- Claim C5, amended. `attempt_rebase` returns `Success` exactly when the
rebase command succeeds.  On rebase failure it first aborts an in-progress
rebase if and only if the markers are present, and returns `Conflict` — with
one exception the claim missed: when the `rebase --abort` cleanup itself
fails, that failure is propagated as a fatal error instead of `Conflict`. -/
theorem C5_attempt_rebase_classification (env : Env)
    (repo worktree onto : String) (tr : List Event) :
    (env.runGit tr ["rebase", onto] worktree = .ok () →
      attempt_rebase env repo worktree onto tr =
        (.ok RebaseResult.Success,
          tr ++ [Event.gitCmd ["rebase", onto] worktree])) ∧
    (∀ e, env.runGit tr ["rebase", onto] worktree = .error e →
      (is_rebasing env repo (some "autorebase_worktree")
          (tr ++ [Event.gitCmd ["rebase", onto] worktree]) = false →
        attempt_rebase env repo worktree onto tr =
          (.ok RebaseResult.Conflict,
            tr ++ [Event.gitCmd ["rebase", onto] worktree])) ∧
      (is_rebasing env repo (some "autorebase_worktree")
          (tr ++ [Event.gitCmd ["rebase", onto] worktree]) = true →
        (env.runGit (tr ++ [Event.gitCmd ["rebase", onto] worktree])
            ["rebase", "--abort"] worktree = .ok () →
          attempt_rebase env repo worktree onto tr =
            (.ok RebaseResult.Conflict,
              tr ++ [Event.gitCmd ["rebase", onto] worktree,
                Event.gitCmd ["rebase", "--abort"] worktree])) ∧
        (∀ e2, env.runGit (tr ++ [Event.gitCmd ["rebase", onto] worktree])
            ["rebase", "--abort"] worktree = .error e2 →
          attempt_rebase env repo worktree onto tr =
            (.error e2,
              tr ++ [Event.gitCmd ["rebase", onto] worktree,
                Event.gitCmd ["rebase", "--abort"] worktree])))) := by
  refine ⟨fun hok => ?_, fun e herr =>
    ⟨fun hno => ?_, fun hyes =>
      ⟨fun habort => ?_, fun e2 habort => ?_⟩⟩⟩
  all_goals unfold attempt_rebase runGitCmd
  · rw [hok]
  · rw [herr]
    dsimp only
    rw [if_neg (by simp [hno])]
  · rw [herr]
    dsimp only
    rw [if_pos hyes, habort]
    dsimp only
    simp
  · rw [herr]
    dsimp only
    rw [if_pos hyes, habort]
    dsimp only
    simp

/-- Claim C5, counterexample. Under `envC5`, the rebase command fails, the
in-progress markers are present, and the `rebase --abort` cleanup fails too:
`attempt_rebase` then propagates a fatal error instead of returning `Conflict`
uniformly, falsifying "on any rebase command failure it returns Conflict
uniformly (never propagating the failure as fatal)". -/
theorem C5_counterexample :
    envC5.runGit [] ["rebase", "X"] "w" = .error ⟨"rebase failed"⟩ ∧
    (attempt_rebase envC5 "r" "w" "X" []).1 = .error ⟨"abort failed"⟩ := by
  constructor
  · decide
  · decide

/-- Claim C5, witness. A successful rebase is classified `Success`, and a failed
rebase with no in-progress markers is classified `Conflict` without an abort,
at the concrete environments `envW` and `envC1`. -/
theorem C5_witness :
    attempt_rebase envW "r" "w" "t1" [] =
      (.ok RebaseResult.Success, [Event.gitCmd ["rebase", "t1"] "w"]) ∧
    attempt_rebase envC1 "r" "w" "t1" [] =
      (.ok RebaseResult.Conflict, [Event.gitCmd ["rebase", "t1"] "w"]) := by
  constructor
  · exact (C5_attempt_rebase_classification envW "r" "w" "t1" []).1 (by decide)
  · exact (((C5_attempt_rebase_classification envC1 "r" "w" "t1" []).2
      ⟨"rebase conflict"⟩ (by decide)).1 (by decide))

/-- Claim C3. For every catalog entry, exactly the four skip predicates are
evaluated, in priority order with the first match winning: (1) branch is the
mainline target, (2) it has an upstream tracking ref, (3) it is checked out in
some worktree, (4) the memo maps it to its current commit (checked only after
the rev-parse that the first three predicates do not need); a branch matching
none of them proceeds to rebase processing (the forget-persist-rebase
sequence). -/
theorem C3_skip_priority (env : Env) (repo worktree onto : String)
    (conflicts : Conflicts) (b : BranchInfo) (tr : List Event) :
    (b.branch = onto →
      processBranch env repo worktree onto conflicts b tr =
        (.ok conflicts, tr ++ [Event.eprintln
          ("Skipping branch " ++ b.branch ++ " because it is the target")])) ∧
    (¬b.branch = onto → b.upstream.isSome = true →
      processBranch env repo worktree onto conflicts b tr =
        (.ok conflicts, tr ++ [Event.eprintln
          ("Skipping branch " ++ b.branch ++ " because it tracks upstream")])) ∧
    (¬b.branch = onto → b.upstream = none → b.worktree_path.isSome = true →
      processBranch env repo worktree onto conflicts b tr =
        (.ok conflicts, tr ++ [Event.eprintln
          ("Skipping branch " ++ b.branch ++ " because it is checked out")])) ∧
    (∀ commit, ¬b.branch = onto → b.upstream = none → b.worktree_path = none →
      env.runGitOut tr ["rev-parse", b.branch] repo = .ok commit →
      conflicts.get b.branch = some commit →
      processBranch env repo worktree onto conflicts b tr =
        (.ok conflicts, tr ++ [Event.gitOut ["rev-parse", b.branch] repo,
          Event.eprintln ("Skipping branch " ++ b.branch ++
            " because it had conflicts last time we tried; rebase manually")])) ∧
    (∀ commit, ¬b.branch = onto → b.upstream = none → b.worktree_path = none →
      env.runGitOut tr ["rev-parse", b.branch] repo = .ok commit →
      ¬conflicts.get b.branch = some commit →
      (processBranch env repo worktree onto conflicts b tr).2.take
          (tr.length + 3) =
        tr ++ [Event.gitOut ["rev-parse", b.branch] repo,
          Event.memoWrite (conflicts.remove b.branch).branches,
          Event.eprintln ("\nRebasing " ++ b.branch ++ "\n")]) := by
  refine ⟨fun h1 => ?_, fun h1 h2 => ?_, fun h1 h2 h3 => ?_,
    fun commit h1 h2 h3 h4 h5 => ?_, fun commit h1 h2 h3 h4 h5 =>
      processBranch_inprogress_take env repo worktree onto conflicts b tr
        commit h1 h2 h3 h4 h5⟩
  · unfold processBranch
    rw [if_pos h1]
    rfl
  · unfold processBranch
    rw [if_neg h1, if_pos h2]
    rfl
  · unfold processBranch
    rw [if_neg h1, if_neg (by simp [h2]), if_pos h3]
    rfl
  · unfold processBranch runGitCmdOutput
    rw [if_neg h1, if_neg (by simp [h2]), if_neg (by simp [h3])]
    dsimp only
    rw [h4]
    dsimp only
    rw [if_pos h5]
    simp [logLine]

/-- Claim C3, witness. At a concrete environment, a branch that is not the
target, tracks no upstream and is checked out nowhere, but whose memo entry
equals its current commit, is skipped by the fourth predicate after the
rev-parse, leaving the memo untouched. -/
theorem C3_witness :
    processBranch envW "r" "w" "master" ⟨[("wip", "c1")]⟩
        ⟨"wip", none, none⟩ [] =
      (.ok ⟨[("wip", "c1")]⟩,
        [] ++ [Event.gitOut ["rev-parse", "wip"] "r",
          Event.eprintln ("Skipping branch " ++ "wip" ++
            " because it had conflicts last time we tried; rebase manually")]) :=
  (C3_skip_priority envW "r" "w" "master" ⟨[("wip", "c1")]⟩
    ⟨"wip", none, none⟩ []).2.2.2.1 "c1" (by decide) rfl rfl (by decide)
    (by decide)

/-- Claim C6. For every branch that passes all skip predicates — whether or not
it currently has a memo entry — the memo with the branch's entry removed is
persisted (the `memoWrite` of the erased mapping) before the target-candidate
list is resolved and before any rebase command: it is, after the rev-parse
already needed by the fourth skip predicate, the very next effect of the
run. -/
theorem C6_forget_persisted_first (env : Env) (repo worktree onto : String)
    (conflicts : Conflicts) (b : BranchInfo) (tr : List Event)
    (commit : String)
    (h1 : ¬b.branch = onto) (h2 : b.upstream = none)
    (h3 : b.worktree_path = none)
    (h4 : env.runGitOut tr ["rev-parse", b.branch] repo = .ok commit)
    (h5 : ¬conflicts.get b.branch = some commit) :
    (processBranch env repo worktree onto conflicts b tr).2.take
        (tr.length + 3) =
      tr ++ [Event.gitOut ["rev-parse", b.branch] repo,
        Event.memoWrite (conflicts.remove b.branch).branches,
        Event.eprintln ("\nRebasing " ++ b.branch ++ "\n")] :=
  processBranch_inprogress_take env repo worktree onto conflicts b tr commit
    h1 h2 h3 h4 h5

/-- Claim C6, witness. Concretely, for eligible branch `wip` with a stale memo
entry, the second event of its processing is the persisted memo with the entry
removed, before the merge-base, log, and rebase commands. -/
theorem C6_witness :
    (processBranch envW "r" "w" "master" ⟨[("wip", "c0")]⟩
        ⟨"wip", none, none⟩ []).2.take 3 =
      [] ++ [Event.gitOut ["rev-parse", "wip"] "r",
        Event.memoWrite [],
        Event.eprintln ("\nRebasing " ++ "wip" ++ "\n")] :=
  C6_forget_persisted_first envW "r" "w" "master" ⟨[("wip", "c0")]⟩
    ⟨"wip", none, none⟩ [] "c1" (by decide) rfl rfl (by decide) (by decide)

/-- Full characterization of the processing of an eligible branch, given the
results of the target resolution, the checkout, the candidate iteration and
the detach: the final memo and trace depend only on the
`stopped_by_conflicts` flag the iteration returns. -/
theorem processBranch_eligible (env : Env) (repo worktree onto : String)
    (conflicts : Conflicts) (b : BranchInfo) (tr tr4 tr6 : List Event)
    (commit : String) (ts : List String) (stopped : Bool)
    (h1 : ¬b.branch = onto) (h2 : b.upstream = none)
    (h3 : b.worktree_path = none)
    (h4 : env.runGitOut tr ["rev-parse", b.branch] repo = .ok commit)
    (h5 : ¬conflicts.get b.branch = some commit)
    (h6 : get_target_commit_list env repo b.branch onto
        (tr ++ [Event.gitOut ["rev-parse", b.branch] repo,
          Event.memoWrite (conflicts.remove b.branch).branches,
          Event.eprintln ("\nRebasing " ++ b.branch ++ "\n")]) = (.ok ts, tr4))
    (h9 : env.runGit tr4 ["switch", b.branch] worktree = .ok ())
    (hloop : attemptLoop env repo worktree ts false
        (tr4 ++ [Event.gitCmd ["switch", b.branch] worktree]) =
        (.ok stopped, tr6))
    (h10 : env.runGit tr6 ["checkout", "--detach"] worktree = .ok ()) :
    (stopped = false →
      processBranch env repo worktree onto conflicts b tr =
        (.ok (conflicts.remove b.branch),
          tr6 ++ [Event.gitCmd ["checkout", "--detach"] worktree])) ∧
    (∀ commit2, stopped = true →
      env.runGitOut (tr6 ++ [Event.gitCmd ["checkout", "--detach"] worktree])
          ["rev-parse", b.branch] repo = .ok commit2 →
      processBranch env repo worktree onto conflicts b tr =
        (.ok ((conflicts.remove b.branch).insert b.branch commit2),
          tr6 ++ [Event.gitCmd ["checkout", "--detach"] worktree,
            Event.gitOut ["rev-parse", b.branch] repo,
            Event.memoWrite
              ((conflicts.remove b.branch).insert b.branch commit2).branches])) := by
  constructor
  · intro hs
    subst hs
    unfold processBranch runGitCmdOutput
    rw [if_neg h1, if_neg (by simp [h2]), if_neg (by simp [h3])]
    dsimp only
    rw [h4]
    dsimp only
    rw [if_neg h5]
    rw [show logLine ("\nRebasing " ++ b.branch ++ "\n")
        ((tr ++ [Event.gitOut ["rev-parse", b.branch] repo]) ++
          [Event.memoWrite (conflicts.remove b.branch).branches]) =
        tr ++ [Event.gitOut ["rev-parse", b.branch] repo,
          Event.memoWrite (conflicts.remove b.branch).branches,
          Event.eprintln ("\nRebasing " ++ b.branch ++ "\n")] from by
      rw [logLine]; simp]
    rw [h6]
    dsimp only [checkout_branch, runGitCmd]
    rw [h9]
    dsimp only
    rw [hloop]
    dsimp only
    rw [h10]
    simp
  · intro commit2 hs hrev
    subst hs
    unfold processBranch runGitCmdOutput
    rw [if_neg h1, if_neg (by simp [h2]), if_neg (by simp [h3])]
    dsimp only
    rw [h4]
    dsimp only
    rw [if_neg h5]
    rw [show logLine ("\nRebasing " ++ b.branch ++ "\n")
        ((tr ++ [Event.gitOut ["rev-parse", b.branch] repo]) ++
          [Event.memoWrite (conflicts.remove b.branch).branches]) =
        tr ++ [Event.gitOut ["rev-parse", b.branch] repo,
          Event.memoWrite (conflicts.remove b.branch).branches,
          Event.eprintln ("\nRebasing " ++ b.branch ++ "\n")] from by
      rw [logLine]; simp]
    rw [h6]
    dsimp only [checkout_branch, runGitCmd]
    rw [h9]
    dsimp only
    rw [hloop]
    dsimp only
    rw [h10]
    dsimp only
    rw [hrev]
    dsimp only
    simp

/-- For an eligible branch, a failing `git switch` in the scratch worktree
makes the whole branch processing fail with that error. -/
theorem processBranch_checkout_error (env : Env) (repo worktree onto : String)
    (conflicts : Conflicts) (b : BranchInfo) (tr tr4 : List Event)
    (commit : String) (ts : List String) (e : Err)
    (h1 : ¬b.branch = onto) (h2 : b.upstream = none)
    (h3 : b.worktree_path = none)
    (h4 : env.runGitOut tr ["rev-parse", b.branch] repo = .ok commit)
    (h5 : ¬conflicts.get b.branch = some commit)
    (h6 : get_target_commit_list env repo b.branch onto
        (tr ++ [Event.gitOut ["rev-parse", b.branch] repo,
          Event.memoWrite (conflicts.remove b.branch).branches,
          Event.eprintln ("\nRebasing " ++ b.branch ++ "\n")]) = (.ok ts, tr4))
    (h9e : env.runGit tr4 ["switch", b.branch] worktree = .error e) :
    processBranch env repo worktree onto conflicts b tr =
      (.error e, tr4 ++ [Event.gitCmd ["switch", b.branch] worktree]) := by
  unfold processBranch runGitCmdOutput
  rw [if_neg h1, if_neg (by simp [h2]), if_neg (by simp [h3])]
  dsimp only
  rw [h4]
  dsimp only
  rw [if_neg h5]
  rw [show logLine ("\nRebasing " ++ b.branch ++ "\n")
      ((tr ++ [Event.gitOut ["rev-parse", b.branch] repo]) ++
        [Event.memoWrite (conflicts.remove b.branch).branches]) =
      tr ++ [Event.gitOut ["rev-parse", b.branch] repo,
        Event.memoWrite (conflicts.remove b.branch).branches,
        Event.eprintln ("\nRebasing " ++ b.branch ++ "\n")] from by
    rw [logLine]; simp]
  rw [h6]
  dsimp only [checkout_branch, runGitCmd]
  rw [h9e]

/-- An error from the head branch's processing is the result of the whole
main loop. -/
theorem mainLoop_head_error (env : Env) (repo worktree onto : String)
    (conflicts : Conflicts) (b : BranchInfo) (bs : List BranchInfo)
    (tr trX : List Event) (e : Err)
    (h : processBranch env repo worktree onto conflicts b tr = (.error e, trX)) :
    mainLoop env repo worktree onto (b :: bs) conflicts tr = (.error e, trX) := by
  unfold mainLoop
  rw [h]

/-- An error from the main loop is the result of the whole `autorebase` run. -/
theorem autorebase_of_mainLoop_error (env : Env) (repo onto : String)
    (tr tr2 trX : List Event) (bs : List BranchInfo) (e : Err)
    (hm : env.memoFile = none) (hw : env.worktreeIsDir = true)
    (hb : env.branchesOutput = .ok bs)
    (hr : refreshOnto env (repo ++ "/.git/autorebase/autorebase_worktree") onto
        bs (tr ++ [Event.gitOut ["for-each-ref", forEachRefFormat,
          "refs/heads"] repo]) = (.ok (), tr2))
    (hl : mainLoop env repo (repo ++ "/.git/autorebase/autorebase_worktree")
        onto bs Conflicts.empty tr2 = (.error e, trX)) :
    autorebase env repo onto tr = (.error e, trX) := by
  unfold autorebase
  rw [hm, hb, hw]
  dsimp only
  rw [if_neg (by decide : ¬(!true) = true)]
  dsimp only
  rw [hr]
  dsimp only
  rw [hl]

/-- Claim C2, amended. For every non-skipped branch whose target-candidate list
is empty, the run leaves the branch's commit untouched — the final trace shows
that no rebase command is ever issued for it — and records no success or
conflict outcome in the memo; the only memo change is the unconditional stale
entry removal, so when the branch had no memo entry the memo is left exactly
unchanged. -/
theorem C2_empty_target_list (env : Env) (repo worktree onto : String)
    (conflicts : Conflicts) (b : BranchInfo) (tr tr4 : List Event)
    (commit : String)
    (h1 : ¬b.branch = onto) (h2 : b.upstream = none)
    (h3 : b.worktree_path = none)
    (h4 : env.runGitOut tr ["rev-parse", b.branch] repo = .ok commit)
    (h5 : ¬conflicts.get b.branch = some commit)
    (h6 : get_target_commit_list env repo b.branch onto
        (tr ++ [Event.gitOut ["rev-parse", b.branch] repo,
          Event.memoWrite (conflicts.remove b.branch).branches,
          Event.eprintln ("\nRebasing " ++ b.branch ++ "\n")]) = (.ok [], tr4))
    (h9 : env.runGit tr4 ["switch", b.branch] worktree = .ok ())
    (h10 : env.runGit (tr4 ++ [Event.gitCmd ["switch", b.branch] worktree])
        ["checkout", "--detach"] worktree = .ok ()) :
    processBranch env repo worktree onto conflicts b tr =
      (.ok (conflicts.remove b.branch),
        tr4 ++ [Event.gitCmd ["switch", b.branch] worktree,
          Event.gitCmd ["checkout", "--detach"] worktree]) ∧
    (conflicts.get b.branch = none →
      conflicts.remove b.branch = conflicts) := by
  refine ⟨?_, Conflicts.remove_eq_self_of_get_none conflicts b.branch⟩
  have h := (processBranch_eligible env repo worktree onto conflicts b tr tr4
    (tr4 ++ [Event.gitCmd ["switch", b.branch] worktree]) commit [] false
    h1 h2 h3 h4 h5 h6 h9 rfl h10).1 rfl
  rw [h]
  simp

/-- Claim C2, counterexample. Branch `wip` is non-skipped (its stale memo entry
records `c0` while it now points at `c1`) and its target-candidate list is
empty, yet the run does not leave the conflict memo unchanged: the stale entry
is removed, so the memo goes from one entry to none. -/
theorem C2_counterexample :
    (get_target_commit_list envC2 "r" "wip" "master" []).1 = .ok [] ∧
    (processBranch envC2 "r" "w" "master" ⟨[("wip", "c0")]⟩
        ⟨"wip", none, none⟩ []).1 = .ok ⟨[]⟩ ∧
    ¬(⟨[]⟩ : Conflicts) = ⟨[("wip", "c0")]⟩ := by
  refine ⟨by decide, by decide, by decide⟩

/-- Claim C2, witness. The amended statement at the concrete environment
`envC2`, for a branch with no memo entry: the memo comes out exactly as it
went in, and the trace ends after the switch and detach with no rebase. -/
theorem C2_witness :
    (processBranch envC2 "r" "w" "master" ⟨[]⟩ ⟨"wip", none, none⟩ [] =
      (.ok ((⟨[]⟩ : Conflicts).remove "wip"),
        [Event.gitOut ["rev-parse", "wip"] "r",
          Event.memoWrite [],
          Event.eprintln ("\nRebasing " ++ "wip" ++ "\n"),
          Event.gitOut ["merge-base", "wip", "master"] "r",
          Event.gitOut ["log", "--format=%H", "mb..master"] "r",
          Event.gitCmd ["switch", "wip"] "w",
          Event.gitCmd ["checkout", "--detach"] "w"])) ∧
    ((⟨[]⟩ : Conflicts).get "wip" = none →
      (⟨[]⟩ : Conflicts).remove "wip" = ⟨[]⟩) := by
  have h := C2_empty_target_list envC2 "r" "w" "master" ⟨[]⟩
    ⟨"wip", none, none⟩ [] _ "c1" (by decide) rfl rfl rfl (by decide) rfl rfl rfl
  exact ⟨h.1, h.2⟩

/-- Claim C10. A branch that passes all skip predicates is checked out in the
scratch worktree and later detached even when its target-candidate list is
empty, so such a branch still requires a successful checkout; and a checkout
failure is fatal: it becomes the error of the branch's processing, of the main
loop, and (via the propagation of a main-loop error) of the entire
`autorebase` run. -/
theorem C10_checkout_even_when_idle (env : Env) (repo worktree onto : String)
    (conflicts : Conflicts) (b : BranchInfo) (tr tr4 : List Event)
    (commit : String)
    (h1 : ¬b.branch = onto) (h2 : b.upstream = none)
    (h3 : b.worktree_path = none)
    (h4 : env.runGitOut tr ["rev-parse", b.branch] repo = .ok commit)
    (h5 : ¬conflicts.get b.branch = some commit)
    (h6 : get_target_commit_list env repo b.branch onto
        (tr ++ [Event.gitOut ["rev-parse", b.branch] repo,
          Event.memoWrite (conflicts.remove b.branch).branches,
          Event.eprintln ("\nRebasing " ++ b.branch ++ "\n")]) = (.ok [], tr4)) :
    (env.runGit tr4 ["switch", b.branch] worktree = .ok () →
      env.runGit (tr4 ++ [Event.gitCmd ["switch", b.branch] worktree])
          ["checkout", "--detach"] worktree = .ok () →
      processBranch env repo worktree onto conflicts b tr =
        (.ok (conflicts.remove b.branch),
          tr4 ++ [Event.gitCmd ["switch", b.branch] worktree,
            Event.gitCmd ["checkout", "--detach"] worktree])) ∧
    (∀ e, env.runGit tr4 ["switch", b.branch] worktree = .error e →
      processBranch env repo worktree onto conflicts b tr =
        (.error e, tr4 ++ [Event.gitCmd ["switch", b.branch] worktree]) ∧
      ∀ bs, mainLoop env repo worktree onto (b :: bs) conflicts tr =
        (.error e, tr4 ++ [Event.gitCmd ["switch", b.branch] worktree])) ∧
    (∀ e trX trB tr2 bs,
      env.memoFile = none → env.worktreeIsDir = true →
      env.branchesOutput = .ok bs →
      refreshOnto env (repo ++ "/.git/autorebase/autorebase_worktree") onto bs
        (trB ++ [Event.gitOut ["for-each-ref", forEachRefFormat,
          "refs/heads"] repo]) = (.ok (), tr2) →
      mainLoop env repo (repo ++ "/.git/autorebase/autorebase_worktree") onto
        bs Conflicts.empty tr2 = (.error e, trX) →
      autorebase env repo onto trB = (.error e, trX)) := by
  refine ⟨fun h9 h10 => ?_, fun e h9e => ⟨?_, fun bs => ?_⟩,
    fun e trX trB tr2 bs hm hw hb hr hl =>
      autorebase_of_mainLoop_error env repo onto trB tr2 trX bs e hm hw hb hr hl⟩
  · have h := (processBranch_eligible env repo worktree onto conflicts b tr tr4
      (tr4 ++ [Event.gitCmd ["switch", b.branch] worktree]) commit [] false
      h1 h2 h3 h4 h5 h6 h9 rfl h10).1 rfl
    rw [h]
    simp
  · exact processBranch_checkout_error env repo worktree onto conflicts b tr
      tr4 commit [] e h1 h2 h3 h4 h5 h6 h9e
  · exact mainLoop_head_error env repo worktree onto conflicts b bs tr _ e
      (processBranch_checkout_error env repo worktree onto conflicts b tr
        tr4 commit [] e h1 h2 h3 h4 h5 h6 h9e)

/-- Claim C10, witness. Under `envSwitchFail`, branch `wip` has an empty target
list and a failing `git switch`: its processing fails, and the whole
`autorebase` run returns that same error. -/
theorem C10_witness :
    (processBranch envSwitchFail "r" "r/.git/autorebase/autorebase_worktree"
        "master" ⟨[]⟩ ⟨"wip", none, none⟩ []).1 =
      .error ⟨"worktree is dirty"⟩ ∧
    (autorebase envSwitchFail "r" "master" []).1 =
      .error ⟨"worktree is dirty"⟩ := by
  have hc := C10_checkout_even_when_idle envSwitchFail "r"
    "r/.git/autorebase/autorebase_worktree" "master" ⟨[]⟩ ⟨"wip", none, none⟩
    [] _ "c1" (by decide) rfl rfl rfl (by decide) rfl
  have h1 := (hc.2.1 ⟨"worktree is dirty"⟩ rfl).1
  have h3 := hc.2.2 ⟨"worktree is dirty"⟩ _ [] _ [⟨"wip", none, none⟩]
    rfl rfl rfl rfl rfl
  constructor
  · rw [h1]
  · rw [h3]

/-- Claim C1, amended. For a branch processed as `InProgress`, a conflict-memo
entry (with the branch's current post-attempt commit) is re-inserted and
persisted if and only if the candidate iteration's `stopped_by_conflicts`
flag is set — that is, iff at least one rebase attempt returned `Conflict` —
even when a later, older candidate then succeeded.  Once a `Conflict` is seen
the flag stays set (first conjunct); the flag stays clear exactly when the
first attempt succeeds or the list is empty (second and third conjuncts give
the loop's step equations); and the final conjunct gives the two memo
outcomes. -/
theorem C1_memo_iff_conflict_flag (env : Env)
    (repo worktree onto : String) :
    (∀ ts tr r tr2,
      attemptLoop env repo worktree ts true tr = (.ok r, tr2) → r = true) ∧
    (∀ t ts tr tr1, attempt_rebase env repo worktree t
        (logLine ("\nRebasing onto " ++ t ++ "\n") tr) =
        (.ok RebaseResult.Success, tr1) →
      attemptLoop env repo worktree (t :: ts) false tr =
        (.ok false, logLine ("\nRebasing onto " ++ t ++ ": success\n") tr1)) ∧
    (∀ t ts tr tr1, attempt_rebase env repo worktree t
        (logLine ("\nRebasing onto " ++ t ++ "\n") tr) =
        (.ok RebaseResult.Conflict, tr1) →
      attemptLoop env repo worktree (t :: ts) false tr =
        attemptLoop env repo worktree ts true
          (logLine ("\nRebasing onto " ++ t ++ ": conflict\n") tr1)) ∧
    (∀ conflicts (b : BranchInfo) tr tr4 tr6 commit ts stopped,
      ¬b.branch = onto → b.upstream = none → b.worktree_path = none →
      env.runGitOut tr ["rev-parse", b.branch] repo = .ok commit →
      ¬conflicts.get b.branch = some commit →
      get_target_commit_list env repo b.branch onto
        (tr ++ [Event.gitOut ["rev-parse", b.branch] repo,
          Event.memoWrite (conflicts.remove b.branch).branches,
          Event.eprintln ("\nRebasing " ++ b.branch ++ "\n")]) = (.ok ts, tr4) →
      env.runGit tr4 ["switch", b.branch] worktree = .ok () →
      attemptLoop env repo worktree ts false
        (tr4 ++ [Event.gitCmd ["switch", b.branch] worktree]) =
        (.ok stopped, tr6) →
      env.runGit tr6 ["checkout", "--detach"] worktree = .ok () →
      ((stopped = false →
        processBranch env repo worktree onto conflicts b tr =
          (.ok (conflicts.remove b.branch),
            tr6 ++ [Event.gitCmd ["checkout", "--detach"] worktree])) ∧
       (∀ commit2, stopped = true →
        env.runGitOut (tr6 ++ [Event.gitCmd ["checkout", "--detach"] worktree])
            ["rev-parse", b.branch] repo = .ok commit2 →
        processBranch env repo worktree onto conflicts b tr =
          (.ok ((conflicts.remove b.branch).insert b.branch commit2),
            tr6 ++ [Event.gitCmd ["checkout", "--detach"] worktree,
              Event.gitOut ["rev-parse", b.branch] repo,
              Event.memoWrite ((conflicts.remove b.branch).insert b.branch
                commit2).branches])))) := by
  refine ⟨?_, ?_, ?_, fun conflicts b tr tr4 tr6 commit ts stopped
    h1 h2 h3 h4 h5 h6 h9 hloop h10 =>
      processBranch_eligible env repo worktree onto conflicts b tr tr4 tr6
        commit ts stopped h1 h2 h3 h4 h5 h6 h9 hloop h10⟩
  · intro ts
    induction ts with
    | nil =>
      intro tr r tr2 h
      have : (Except.ok true, tr) =
          ((.ok r, tr2) : Except Err Bool × List Event) := h
      cases this
      rfl
    | cons tc rest ih =>
      intro tr r tr2 h
      unfold attemptLoop at h
      dsimp only at h
      rcases har : attempt_rebase env repo worktree tc
          (logLine ("\nRebasing onto " ++ tc ++ "\n") tr) with ⟨res, tr1⟩
      rw [har] at h
      cases res with
      | error e => cases h
      | ok r2 =>
        cases r2 with
        | Success =>
          dsimp only at h
          cases h
          rfl
        | Conflict =>
          exact ih _ r tr2 h
  · intro t ts tr tr1 h
    unfold attemptLoop
    dsimp only
    rw [h]
  · intro t ts tr tr1 h
    conv_lhs => rw [attemptLoop]
    rw [h]

/-- Claim C1, counterexample. Under `envC1` the first candidate `t1` conflicts
and the second candidate `t2` succeeds (its `attempt_rebase` returns
`Success`), yet processing branch `wip` still inserts a conflict-memo entry
for it and persists the memo as the run's last effect — falsifying "if some
candidate succeeds, no memo entry is written for the branch in that run". -/
theorem C1_counterexample :
    (attempt_rebase envC1 "r" "w" "t2" []).1 = .ok RebaseResult.Success ∧
    (processBranch envC1 "r" "w" "master" ⟨[]⟩ ⟨"wip", none, none⟩ []).1 =
      .ok ⟨[("wip", "c0")]⟩ ∧
    (processBranch envC1 "r" "w" "master" ⟨[]⟩ ⟨"wip", none, none⟩
        []).2.getLast? = some (Event.memoWrite [("wip", "c0")]) := by
  refine ⟨by decide, by decide, by decide⟩

/-- Claim C1, witness. The amended statement at `envC1`: candidate `t1`
conflicts, candidate `t2` succeeds, the flag is set, so the memo entry for
`wip` is re-inserted with its post-attempt commit `c0`. -/
theorem C1_witness :
    (processBranch envC1 "r" "w" "master" ⟨[]⟩ ⟨"wip", none, none⟩ []).1 =
      .ok ⟨[("wip", "c0")]⟩ := by
  have h := ((C1_memo_iff_conflict_flag envC1 "r" "w" "master").2.2.2
    ⟨[]⟩ ⟨"wip", none, none⟩ [] _ _ "c0" _ _ (by decide) rfl rfl rfl
    (by decide) rfl rfl rfl rfl).2 "c0" rfl rfl
  rw [h]
  decide

/-- Claim C8. The pre-loop mainline refresh (checkout of the mainline in the
scratch worktree, fast-forward-only pull, detach) is issued exactly when the
mainline branch exists in the catalog and is not checked out in any worktree;
when it is absent or checked out, only a non-fatal warning is emitted (the
step returns `.ok` and issues no command) and the refresh is skipped. -/
theorem C8_mainline_refresh (env : Env) (worktree onto : String)
    (all_branches : List BranchInfo) (tr : List Event) :
    (∀ obi, all_branches.find? (fun b => b.branch = onto) = some obi →
      obi.worktree_path = none →
      env.runGit tr ["checkout", onto] worktree = .ok () →
      env.runGit (tr ++ [Event.gitCmd ["checkout", onto] worktree])
          ["pull", "--ff-only"] worktree = .ok () →
      refreshOnto env worktree onto all_branches tr =
        (env.runGit (tr ++ [Event.gitCmd ["checkout", onto] worktree,
            Event.gitCmd ["pull", "--ff-only"] worktree])
            ["checkout", "--detach"] worktree,
          tr ++ [Event.gitCmd ["checkout", onto] worktree,
            Event.gitCmd ["pull", "--ff-only"] worktree,
            Event.gitCmd ["checkout", "--detach"] worktree])) ∧
    (∀ obi, all_branches.find? (fun b => b.branch = onto) = some obi →
      obi.worktree_path.isSome = true →
      refreshOnto env worktree onto all_branches tr =
        (.ok (), tr ++ [Event.eprintln ("Not pulling " ++ obi.branch ++
          " because it is checked out")])) ∧
    (all_branches.find? (fun b => b.branch = onto) = none →
      refreshOnto env worktree onto all_branches tr =
        (.ok (), tr ++ [Event.eprintln
          ("Warning: " ++ onto ++ " not found")])) := by
  refine ⟨fun obi hfind hwt hc hp => ?_, fun obi hfind hwt => ?_, fun hfind => ?_⟩
  · unfold refreshOnto runGitCmd
    rw [hfind]
    dsimp only
    rw [if_pos (by simp [hwt] : obi.worktree_path.isNone = true), hc]
    dsimp only
    rw [show (tr ++ [Event.gitCmd ["checkout", onto] worktree]) ++
        [Event.gitCmd ["pull", "--ff-only"] worktree] =
        tr ++ [Event.gitCmd ["checkout", onto] worktree,
          Event.gitCmd ["pull", "--ff-only"] worktree] from by simp]
    rw [hp]
    dsimp only
    rw [show (tr ++ [Event.gitCmd ["checkout", onto] worktree,
          Event.gitCmd ["pull", "--ff-only"] worktree]) ++
        [Event.gitCmd ["checkout", "--detach"] worktree] =
        tr ++ [Event.gitCmd ["checkout", onto] worktree,
          Event.gitCmd ["pull", "--ff-only"] worktree,
          Event.gitCmd ["checkout", "--detach"] worktree] from by simp]
  · unfold refreshOnto
    rw [hfind]
    dsimp only
    have hne : ¬obi.worktree_path.isNone = true := by
      rcases hop : obi.worktree_path with _ | a
      · rw [hop] at hwt
        simp at hwt
      · simp
    rw [if_neg hne]
    rfl
  · unfold refreshOnto
    rw [hfind]
    rfl

/-- Claim C8, witness. With the mainline present and not checked out, the three
refresh commands are issued; with it absent from the catalog, only the warning
is emitted and the step succeeds. -/
theorem C8_witness :
    refreshOnto envW "w" "master" [⟨"master", none, none⟩] [] =
      (.ok (), [Event.gitCmd ["checkout", "master"] "w",
        Event.gitCmd ["pull", "--ff-only"] "w",
        Event.gitCmd ["checkout", "--detach"] "w"]) ∧
    refreshOnto envW "w" "master" [] [] =
      (.ok (), [Event.eprintln ("Warning: " ++ "master" ++ " not found")]) := by
  constructor
  · exact (C8_mainline_refresh envW "w" "master" [⟨"master", none, none⟩]
      []).1 ⟨"master", none, none⟩ rfl rfl rfl rfl
  · exact (C8_mainline_refresh envW "w" "master" [] []).2.2 rfl

theorem utf8Valid_nil : utf8Valid [] = true := rfl

/-- The existence part of `recordWf`. -/
theorem recordWf_spec (l : List Nat) (h : recordWf l = true) :
    ∃ p0 p1 p2, splitSep 0 l = [p0, p1, p2] ∧ utf8Valid p0 = true ∧
      utf8Valid p1 = true ∧ utf8Valid p2 = true := by
  unfold recordWf at h
  cases hs : splitSep 0 l with
  | nil => rw [hs] at h; simp at h
  | cons p0 t0 =>
    cases t0 with
    | nil => rw [hs] at h; simp at h
    | cons p1 t1 =>
      cases t1 with
      | nil => rw [hs] at h; simp at h
      | cons p2 t2 =>
        cases t2 with
        | nil =>
          rw [hs] at h
          simp only [Bool.and_eq_true] at h
          exact ⟨p0, p1, p2, rfl, h.1.1, h.1.2, h.2⟩
        | cons p3 t3 => rw [hs] at h; simp at h

theorem parseBranchRecord_ok (l : List Nat) (h : recordWf l = true) :
    parseBranchRecord l = .ok (recordInfo l) := by
  obtain ⟨p0, p1, p2, hspl, v0, v1, v2⟩ := recordWf_spec l h
  unfold parseBranchRecord recordInfo
  rw [hspl]
  dsimp only
  rw [v0]
  by_cases e1 : p1 = [] <;> by_cases e2 : p2 = [] <;>
    simp [v1, v2, e1, e2]

theorem parseBranchRecord_err (l : List Nat) (h : recordWf l = false) :
    ∃ e, parseBranchRecord l = .error e := by
  unfold recordWf at h
  unfold parseBranchRecord
  cases hs : splitSep 0 l with
  | nil => exact ⟨_, rfl⟩
  | cons p0 t0 =>
    cases t0 with
    | nil => exact ⟨_, rfl⟩
    | cons p1 t1 =>
      cases t1 with
      | nil => exact ⟨_, rfl⟩
      | cons p2 t2 =>
        cases t2 with
        | cons p3 t3 => exact ⟨_, rfl⟩
        | nil =>
          rw [hs] at h
          simp only at h
          dsimp only
          by_cases v0 : utf8Valid p0 = true
          · rw [v0]
            by_cases e1 : p1 = []
            · rw [if_pos e1]
              by_cases e2 : p2 = []
              · exfalso
                rw [v0, e1, e2, utf8Valid_nil] at h
                simp at h
              · rw [if_neg e2]
                by_cases v2 : utf8Valid p2 = true
                · exfalso
                  rw [v0, v2, e1, utf8Valid_nil] at h
                  simp at h
                · rw [Bool.not_eq_true] at v2
                  rw [v2]
                  exact ⟨_, rfl⟩
            · rw [if_neg e1]
              by_cases v1 : utf8Valid p1 = true
              · rw [v1]
                by_cases e2 : p2 = []
                · exfalso
                  rw [v0, v1, e2, utf8Valid_nil] at h
                  simp at h
                · rw [if_neg e2]
                  by_cases v2 : utf8Valid p2 = true
                  · exfalso
                    rw [v0, v1, v2] at h
                    simp at h
                  · rw [Bool.not_eq_true] at v2
                    rw [v2]
                    exact ⟨_, rfl⟩
              · rw [Bool.not_eq_true] at v1
                rw [v1]
                exact ⟨_, rfl⟩
          · rw [Bool.not_eq_true] at v0
            rw [v0]
            exact ⟨_, rfl⟩

theorem collectRecords_ok (records : List (List Nat))
    (h : ∀ l ∈ records, recordWf l = true) :
    collectRecords records = .ok (records.map recordInfo) := by
  induction records with
  | nil => rfl
  | cons a rest ih =>
    unfold collectRecords
    rw [parseBranchRecord_ok a (h a (List.mem_cons_self a rest))]
    dsimp only
    rw [ih (fun l hl => h l (List.mem_cons_of_mem _ hl))]
    rfl

theorem collectRecords_err (records : List (List Nat))
    (h : ∃ l ∈ records, recordWf l = false) :
    ∃ e, collectRecords records = .error e := by
  induction records with
  | nil => simp at h
  | cons a rest ih =>
    unfold collectRecords
    rcases hp : parseBranchRecord a with e | info
    · exact ⟨e, rfl⟩
    · dsimp only
      obtain ⟨l, hl, hwf⟩ := h
      rcases List.mem_cons.mp hl with rfl | hl2
      · obtain ⟨e, he⟩ := parseBranchRecord_err l hwf
        rw [hp] at he
        cases he
      · obtain ⟨e, he⟩ := ih ⟨l, hl2, hwf⟩
        rw [he]
        exact ⟨e, rfl⟩

/-- Claim C7. `get_branches` fails iff some non-empty record of the
`for-each-ref` output does not consist of exactly three NUL-separated,
UTF-8-valid fields; on success it returns one `BranchInfo` per non-empty
record, with empty upstream and worktree-path fields mapped to absent
optionals (`recordInfo`); and a failed branch listing aborts the whole
`autorebase` run with that error. -/
theorem C7_get_branches_contract (output : List Nat) :
    ((∀ line ∈ (splitSep 10 output).filter (fun l => ¬l = []),
        recordWf line = true) →
      get_branches output =
        .ok (((splitSep 10 output).filter (fun l => ¬l = [])).map recordInfo)) ∧
    ((∃ line ∈ (splitSep 10 output).filter (fun l => ¬l = []),
        recordWf line = false) →
      ∃ e, get_branches output = .error e) ∧
    (∀ (env : Env) (repo onto : String) (tr : List Event) (e : Err),
      env.memoFile = none → env.worktreeIsDir = true →
      env.branchesOutput = .error e →
      autorebase env repo onto tr =
        (.error e, tr ++ [Event.gitOut ["for-each-ref", forEachRefFormat,
          "refs/heads"] repo])) := by
  refine ⟨fun h => collectRecords_ok _ h, fun h => collectRecords_err _ h,
    fun env repo onto tr e hm hw hb => ?_⟩
  unfold autorebase
  rw [hm, hb, hw]
  dsimp only
  rw [if_neg (by decide : ¬(!true) = true)]

/-- Claim C7, witness. The record `wip\x00\x00` parses to a `BranchInfo` with
absent upstream and worktree path; a two-field record makes the parse fail. -/
theorem C7_witness :
    get_branches [119, 105, 112, 0, 0, 10] =
      .ok [⟨[119, 105, 112], none, none⟩] ∧
    (∃ e, get_branches [119, 0, 10] = .error e) := by
  constructor
  · exact (C7_get_branches_contract [119, 105, 112, 0, 0, 10]).1 (by decide)
  · exact (C7_get_branches_contract [119, 0, 10]).2.1 (by decide)

/-! ## Lemmas about the DAG collaborator model -/

theorem dagRunGitOut_mergeBase (d : Dag) (tr : List Event) (a b cwd : String) :
    dagRunGitOut d tr ["merge-base", a, b] cwd =
      (match dagMergeBase d a b with
       | some m => .ok (m ++ "\n")
       | none => .error ⟨"merge-base failed"⟩) := rfl

theorem dagRunGitOut_log (d : Dag) (tr : List Event) (range cwd : String) :
    dagRunGitOut d tr ["log", "--format=%H", range] cwd =
      (match splitDots range.data with
       | none => .error ⟨"bad range"⟩
       | some (baseChars, tipChars) =>
         match dagResolve d (String.mk baseChars),
             dagResolve d (String.mk tipChars) with
         | some baseC, some tipC => .ok (joinLines (dagLog d baseC tipC))
         | _, _ => .error ⟨"log failed"⟩) := rfl

theorem splitDots_append (a b : List Char) (ha : '.' ∉ a) :
    splitDots (a ++ '.' :: '.' :: b) = some (a, b) := by
  induction a with
  | nil => rfl
  | cons c a2 ih =>
    have hc : ¬c = '.' := fun h => ha (h ▸ List.mem_cons_self c a2)
    have ih2 := ih (fun h => ha (List.mem_cons_of_mem _ h))
    cases a2 with
    | nil =>
      show splitDots (c :: '.' :: '.' :: b) = some ([c], b)
      unfold splitDots
      rw [if_neg hc]
      rfl
    | cons c2 a3 =>
      show splitDots (c :: c2 :: (a3 ++ '.' :: '.' :: b)) =
        some (c :: c2 :: a3, b)
      unfold splitDots
      rw [if_neg hc]
      simp only [List.cons_append] at ih2
      rw [ih2]

theorem reachable_self (d : Dag) (c : String) : reachable d c c = true := by
  unfold reachable
  cases d.commits.length with
  | zero => simp [reachableFuel]
  | succ n => simp [reachableFuel]

theorem dagMergeBase_mem (d : Dag) (a b m : String)
    (h : dagMergeBase d a b = some m) : m ∈ d.commits := by
  unfold dagMergeBase at h
  rcases h1 : dagResolve d a with _ | ca
  · rw [h1] at h
    cases h
  · rcases h2 : dagResolve d b with _ | cb
    · rw [h1, h2] at h
      cases h
    · rw [h1, h2] at h
      dsimp only at h
      cases hf : d.commits.filter
          (fun c => reachable d ca c && reachable d cb c) with
      | nil => rw [hf] at h; cases h
      | cons x xs =>
        rw [hf] at h
        cases h
        have hx : m ∈ d.commits.filter
            (fun c => reachable d ca c && reachable d cb c) :=
          hf ▸ List.mem_cons_self m xs
        exact (List.mem_filter.mp hx).1

theorem dagResolve_commit (d : Dag) (m : String) (hmem : m ∈ d.commits)
    (hno : lookupAssoc d.refs m = none) : dagResolve d m = some m := by
  unfold dagResolve
  rw [hno]
  dsimp only
  rw [if_pos (List.elem_eq_true_of_mem hmem)]

theorem goodId_no_line_chars (s : String) (h : goodId s = true) :
    '\n' ∉ s.data ∧ '\r' ∉ s.data := by
  obtain ⟨-, hch⟩ := goodId_spec s h
  exact ⟨fun hm => absurd (hch _ hm).1 (by decide),
    fun hm => absurd (hch _ hm).1 (by decide)⟩

theorem goodId_no_dot (s : String) (h : goodId s = true) : '.' ∉ s.data :=
  fun hm => ((goodId_spec s h).2 '.' hm).2 rfl

/-- Claim C4. Over the DAG model of the collaborator, `get_target_commit_list`
returns exactly the commits reachable from the mainline but not from the
merge-base of branch and mainline, in the DAG's newest-first commit order
(first conjunct); it fails when the two refs share no common ancestor (second
conjunct); the returned list starts with the mainline tip whenever the tip is
not an ancestor of the merge-base and nothing newer than the tip is reachable
from it (third conjunct); and such a failure is fatal for any environment: it
is the error of the branch's processing and of the whole main loop, not a
per-branch skip (fourth conjunct). -/
theorem C4_target_resolver (d : Dag) (repo branch onto : String)
    (tr : List Event)
    (hgood : ∀ c ∈ d.commits, goodId c = true)
    (hnoref : ∀ c ∈ d.commits, lookupAssoc d.refs c = none) :
    (∀ m co, dagMergeBase d branch onto = some m →
      dagResolve d onto = some co →
      get_target_commit_list (dagEnv d) repo branch onto tr =
        (.ok (d.commits.filter
            (fun c => reachable d co c && !reachable d m c)),
          tr ++ [Event.gitOut ["merge-base", branch, onto] repo,
            Event.gitOut ["log", "--format=%H", m ++ ".." ++ onto] repo])) ∧
    (dagMergeBase d branch onto = none →
      get_target_commit_list (dagEnv d) repo branch onto tr =
        (.error ⟨"merge-base failed"⟩,
          tr ++ [Event.gitOut ["merge-base", branch, onto] repo])) ∧
    (∀ m co pre post, dagResolve d onto = some co →
      d.commits = pre ++ co :: post →
      (∀ c ∈ pre, reachable d co c = false) →
      reachable d m co = false →
      (d.commits.filter
          (fun c => reachable d co c && !reachable d m c)).head? = some co) ∧
    (∀ (env : Env) (worktree : String) (conflicts : Conflicts)
        (b : BranchInfo) (tr0 tr4 : List Event) (commit : String) (e : Err),
      ¬b.branch = onto → b.upstream = none → b.worktree_path = none →
      env.runGitOut tr0 ["rev-parse", b.branch] repo = .ok commit →
      ¬conflicts.get b.branch = some commit →
      get_target_commit_list env repo b.branch onto
        (tr0 ++ [Event.gitOut ["rev-parse", b.branch] repo,
          Event.memoWrite (conflicts.remove b.branch).branches,
          Event.eprintln ("\nRebasing " ++ b.branch ++ "\n")]) =
        (.error e, tr4) →
      processBranch env repo worktree onto conflicts b tr0 = (.error e, tr4) ∧
      ∀ bs, mainLoop env repo worktree onto (b :: bs) conflicts tr0 =
        (.error e, tr4)) := by
  refine ⟨fun m co hmb hco => ?_, fun hmb => ?_,
    fun m co pre post hco hsplit hpre hmco => ?_,
    fun env worktree conflicts b tr0 tr4 commit e h1 h2 h3 h4 h5 h6e => ?_⟩
  · have hmem : m ∈ d.commits := dagMergeBase_mem d branch onto m hmb
    have hgm : goodId m = true := hgood m hmem
    unfold get_target_commit_list get_merge_base runGitCmdOutput
    rw [show (dagEnv d).runGitOut = dagRunGitOut d from rfl,
      dagRunGitOut_mergeBase, hmb]
    dsimp only
    rw [rustTrim_good m hgm]
    rw [dagRunGitOut_log]
    rw [show (m ++ ".." ++ onto).data = m.data ++ '.' :: '.' :: onto.data from by
      rw [String.data_append, String.data_append]
      simp]
    rw [splitDots_append m.data onto.data (goodId_no_dot m hgm)]
    dsimp only
    rw [mk_data, mk_data, dagResolve_commit d m hmem (hnoref m hmem), hco]
    dsimp only
    rw [rustLines_joinLines (dagLog d m co) (by
      intro s hs
      have hsmem : s ∈ d.commits := (List.mem_filter.mp hs).1
      exact goodId_no_line_chars s (hgood s hsmem))]
    unfold dagLog
    simp
  · unfold get_target_commit_list get_merge_base runGitCmdOutput
    rw [show (dagEnv d).runGitOut = dagRunGitOut d from rfl,
      dagRunGitOut_mergeBase, hmb]
  · rw [hsplit, List.filter_append]
    rw [show pre.filter (fun c => reachable d co c && !reachable d m c) =
        ([] : List String) from by
      rw [List.filter_eq_nil_iff]
      intro c hc
      rw [hpre c hc]
      simp]
    rw [List.nil_append, List.filter_cons,
      if_pos (by rw [reachable_self, hmco]; rfl)]
    rfl
  · constructor
    · unfold processBranch runGitCmdOutput
      rw [if_neg h1, if_neg (by simp [h2]), if_neg (by simp [h3])]
      dsimp only
      rw [h4]
      dsimp only
      rw [if_neg h5]
      rw [show logLine ("\nRebasing " ++ b.branch ++ "\n")
          ((tr0 ++ [Event.gitOut ["rev-parse", b.branch] repo]) ++
            [Event.memoWrite (conflicts.remove b.branch).branches]) =
          tr0 ++ [Event.gitOut ["rev-parse", b.branch] repo,
            Event.memoWrite (conflicts.remove b.branch).branches,
            Event.eprintln ("\nRebasing " ++ b.branch ++ "\n")] from by
        rw [logLine]; simp]
      rw [h6e]
    · intro bs
      apply mainLoop_head_error
      unfold processBranch runGitCmdOutput
      rw [if_neg h1, if_neg (by simp [h2]), if_neg (by simp [h3])]
      dsimp only
      rw [h4]
      dsimp only
      rw [if_neg h5]
      rw [show logLine ("\nRebasing " ++ b.branch ++ "\n")
          ((tr0 ++ [Event.gitOut ["rev-parse", b.branch] repo]) ++
            [Event.memoWrite (conflicts.remove b.branch).branches]) =
          tr0 ++ [Event.gitOut ["rev-parse", b.branch] repo,
            Event.memoWrite (conflicts.remove b.branch).branches,
            Event.eprintln ("\nRebasing " ++ b.branch ++ "\n")] from by
        rw [logLine]; simp]
      rw [h6e]

/-- Claim C4, witness. In the concrete DAG `dagW` (mainline `master` at `c2`
over `c1` over `c0`, topic `wip` at `w1` off `c0`), the resolver returns
`[c2, c1]` — newest first, excluding the merge-base `c0` — and in the
disjoint-history DAG it fails. -/
theorem C4_witness :
    get_target_commit_list (dagEnv dagW) "r" "wip" "master" [] =
      (.ok (dagW.commits.filter
          (fun c => reachable dagW "c2" c && !reachable dagW "c0" c)),
        [Event.gitOut ["merge-base", "wip", "master"] "r",
          Event.gitOut ["log", "--format=%H", "c0" ++ ".." ++ "master"] "r"]) ∧
    dagW.commits.filter
        (fun c => reachable dagW "c2" c && !reachable dagW "c0" c) =
      ["c2", "c1"] ∧
    get_target_commit_list (dagEnv dagDisjoint) "r" "wip" "master" [] =
      (.error ⟨"merge-base failed"⟩,
        [Event.gitOut ["merge-base", "wip", "master"] "r"]) := by
  refine ⟨?_, by decide, ?_⟩
  · exact (C4_target_resolver dagW "r" "wip" "master" [] (by decide)
      (by decide)).1 "c0" "c2" (by decide) (by decide)
  · exact (C4_target_resolver dagDisjoint "r" "wip" "master" [] (by decide)
      (by decide)).2.1 (by decide)

end Autorebase
